import Mathlib

/-!
Verification development for the sorbet core: the AST deep-copy protocol
(src/ast/TreeCopying.cc), the Command DSL rewriter (src/dsl/Command.cc), and
the LSP loop (src/main/LSPLoop.cc).

The AST is embedded as a mutual inductive family.  Every node carries an
explicit `id : Nat` modelling its heap address (C++ pointer identity): the
`avoid` pointer of the deep-copy protocol becomes an id, and the pointer
comparisons `this == avoid` / `tree.get() == avoid` become id comparisons.
A `TreeRef` holds a non-owning `ExprOpt` target: a null pointer is `.none`,
and a reference back into the tree being copied is represented by a target
whose id equals the avoid id (the copy fails before ever looking inside such
a target, so its payload is irrelevant, exactly as in the C++ code).

Deep copy threads a fresh-id counter: copied nodes receive ids from the
counter upward, modelling fresh heap allocation.  Failure (`DeepCopyError`)
is an `Except Unit` error, caught at the public entry point
`Expression.deepCopy`, which returns `none` ("not-copyable") like the C++
`nullptr`.
-/

namespace SorbetModel

/-- `ast::ClassDefKind` : `Class` or `Module`. -/
inductive ClassDefKind where
  | classKind
  | moduleKind
deriving DecidableEq

mutual

/-- The closed AST node family of `ast/ast.h`, as copied in
`src/ast/TreeCopying.cc`.  Field order follows the C++ constructors.
Non-owning payloads (locations, symbol refs, name refs, literal values,
local-variable handles, cast kinds) are modelled as `Nat` tokens. -/
inductive Expression where
  | classDef (id : Nat) (loc : Nat) (symbol : Nat) (name : Expression)
      (ancestors : ExprList) (rhs : ExprList) (kind : ClassDefKind)
  | methodDef (id : Nat) (loc : Nat) (symbol : Nat) (name : Nat)
      (args : ExprList) (rhs : Expression) (isSelf : Bool)
  | constDef (id : Nat) (loc : Nat) (symbol : Nat) (rhs : Expression)
  | ifExpr (id : Nat) (loc : Nat) (cond : Expression) (thenp : Expression) (elsep : Expression)
  | whileExpr (id : Nat) (loc : Nat) (cond : Expression) (body : Expression)
  | breakExpr (id : Nat) (loc : Nat) (expr : Expression)
  | retryExpr (id : Nat) (loc : Nat)
  | nextExpr (id : Nat) (loc : Nat) (expr : Expression)
  | returnExpr (id : Nat) (loc : Nat) (expr : Expression)
  | yieldExpr (id : Nat) (loc : Nat) (expr : Expression)
  | rescueCase (id : Nat) (loc : Nat) (exceptions : ExprList) (var : Expression) (body : Expression)
  | rescueExpr (id : Nat) (loc : Nat) (body : Expression) (rescueCases : ExprList)
      (elsep : Expression) (ensure : Expression)
  | ident (id : Nat) (loc : Nat) (symbol : Nat)
  | localExpr (id : Nat) (loc : Nat) (localVariable : Nat)
  | unresolvedIdent (id : Nat) (loc : Nat) (kind : Nat) (name : Nat)
  | restArg (id : Nat) (loc : Nat) (expr : Expression)
  | keywordArg (id : Nat) (loc : Nat) (expr : Expression)
  | optionalArg (id : Nat) (loc : Nat) (expr : Expression) (dflt : Expression)
  | blockArg (id : Nat) (loc : Nat) (expr : Expression)
  | shadowArg (id : Nat) (loc : Nat) (expr : Expression)
  | assign (id : Nat) (loc : Nat) (lhs : Expression) (rhs : Expression)
  | send (id : Nat) (loc : Nat) (recv : Expression) (fn : Nat)
      (args : ExprList) (block : ExprOpt)
  | cast (id : Nat) (loc : Nat) (ty : Nat) (arg : Expression) (castKind : Nat)
  | hash (id : Nat) (loc : Nat) (keys : ExprList) (values : ExprList)
  | array (id : Nat) (loc : Nat) (elems : ExprList)
  | literal (id : Nat) (loc : Nat) (value : Nat)
  | constantLit (id : Nat) (loc : Nat) (scope : Expression) (cnst : Nat)
  | arraySplat (id : Nat) (loc : Nat) (arg : Expression)
  | hashSplat (id : Nat) (loc : Nat) (arg : Expression)
  | zSuperArgs (id : Nat) (loc : Nat)
  | selfExpr (id : Nat) (loc : Nat) (claz : Nat)
  | blockExpr (id : Nat) (loc : Nat) (args : ExprList) (body : Expression) (symbol : Nat)
  | insSeq (id : Nat) (loc : Nat) (stats : ExprList) (expr : Expression)
  | emptyTree (id : Nat) (loc : Nat)
  | treeRef (id : Nat) (loc : Nat) (tree : ExprOpt)

/-- Owned child vectors (`vector<unique_ptr<Expression>>`-style stores). -/
inductive ExprList where
  | nil
  | cons (head : Expression) (tail : ExprList)

/-- A nullable node slot (`unique_ptr` that may be null: `Send::block`,
`TreeRef::tree`). -/
inductive ExprOpt where
  | none
  | some (e : Expression)

end

/-- The node's identity (heap address). -/
def Expression.idOf : Expression → Nat
  | .classDef i _ _ _ _ _ _ => i
  | .methodDef i _ _ _ _ _ _ => i
  | .constDef i _ _ _ => i
  | .ifExpr i _ _ _ _ => i
  | .whileExpr i _ _ _ => i
  | .breakExpr i _ _ => i
  | .retryExpr i _ => i
  | .nextExpr i _ _ => i
  | .returnExpr i _ _ => i
  | .yieldExpr i _ _ => i
  | .rescueCase i _ _ _ _ => i
  | .rescueExpr i _ _ _ _ _ => i
  | .ident i _ _ => i
  | .localExpr i _ _ => i
  | .unresolvedIdent i _ _ _ => i
  | .restArg i _ _ => i
  | .keywordArg i _ _ => i
  | .optionalArg i _ _ _ => i
  | .blockArg i _ _ => i
  | .shadowArg i _ _ => i
  | .assign i _ _ _ => i
  | .send i _ _ _ _ _ => i
  | .cast i _ _ _ _ => i
  | .hash i _ _ _ => i
  | .array i _ _ => i
  | .literal i _ _ => i
  | .constantLit i _ _ _ => i
  | .arraySplat i _ _ => i
  | .hashSplat i _ _ => i
  | .zSuperArgs i _ => i
  | .selfExpr i _ _ => i
  | .blockExpr i _ _ _ _ => i
  | .insSeq i _ _ _ => i
  | .emptyTree i _ => i
  | .treeRef i _ _ => i

mutual

/-- `Expression::_deepCopy(avoid, root)` : the per-node re-entrancy guard
`if (!root && this == avoid) throw DeepCopyError();` followed by the
node-specific copy.  `f` is the fresh-id counter modelling allocation. -/
def dcE (avoid : Nat) (root : Bool) (f : Nat) (e : Expression) :
    Except Unit (Expression × Nat) :=
  if !root && Expression.idOf e == avoid then .error () else dcCore avoid f e
termination_by (2 * sizeOf e + 1, 0)

/-- The node-specific copy bodies of `src/ast/TreeCopying.cc`: non-owning
fields are carried over, owned children are copied via `dcE` (root := false),
child vectors via `dcL` (`deepCopyVec`), the nullable `Send::block` via
`dcO`.  `TreeRef::_deepCopy` checks `tree.get() == avoid`, then `!tree`, then
copies the referenced tree in place of the reference. -/
def dcCore (avoid : Nat) (f : Nat) (e : Expression) :
    Except Unit (Expression × Nat) :=
  match e with
  | .classDef _ loc sym nm ancs rhs kind =>
    match dcE avoid false f nm with
    | .error u => .error u
    | .ok (nm', f₁) =>
      match dcL avoid f₁ ancs with
      | .error u => .error u
      | .ok (ancs', f₂) =>
        match dcL avoid f₂ rhs with
        | .error u => .error u
        | .ok (rhs', f₃) => .ok (.classDef f₃ loc sym nm' ancs' rhs' kind, f₃ + 1)
  | .methodDef _ loc sym nm args rhs isSelf =>
    match dcL avoid f args with
    | .error u => .error u
    | .ok (args', f₁) =>
      match dcE avoid false f₁ rhs with
      | .error u => .error u
      | .ok (rhs', f₂) => .ok (.methodDef f₂ loc sym nm args' rhs' isSelf, f₂ + 1)
  | .constDef _ loc sym rhs =>
    match dcE avoid false f rhs with
    | .error u => .error u
    | .ok (rhs', f₁) => .ok (.constDef f₁ loc sym rhs', f₁ + 1)
  | .ifExpr _ loc cond thenp elsep =>
    match dcE avoid false f cond with
    | .error u => .error u
    | .ok (cond', f₁) =>
      match dcE avoid false f₁ thenp with
      | .error u => .error u
      | .ok (thenp', f₂) =>
        match dcE avoid false f₂ elsep with
        | .error u => .error u
        | .ok (elsep', f₃) => .ok (.ifExpr f₃ loc cond' thenp' elsep', f₃ + 1)
  | .whileExpr _ loc cond body =>
    match dcE avoid false f cond with
    | .error u => .error u
    | .ok (cond', f₁) =>
      match dcE avoid false f₁ body with
      | .error u => .error u
      | .ok (body', f₂) => .ok (.whileExpr f₂ loc cond' body', f₂ + 1)
  | .breakExpr _ loc expr =>
    match dcE avoid false f expr with
    | .error u => .error u
    | .ok (expr', f₁) => .ok (.breakExpr f₁ loc expr', f₁ + 1)
  | .retryExpr _ loc => .ok (.retryExpr f loc, f + 1)
  | .nextExpr _ loc expr =>
    match dcE avoid false f expr with
    | .error u => .error u
    | .ok (expr', f₁) => .ok (.nextExpr f₁ loc expr', f₁ + 1)
  | .returnExpr _ loc expr =>
    match dcE avoid false f expr with
    | .error u => .error u
    | .ok (expr', f₁) => .ok (.returnExpr f₁ loc expr', f₁ + 1)
  | .yieldExpr _ loc expr =>
    match dcE avoid false f expr with
    | .error u => .error u
    | .ok (expr', f₁) => .ok (.yieldExpr f₁ loc expr', f₁ + 1)
  | .rescueCase _ loc exceptions var body =>
    match dcL avoid f exceptions with
    | .error u => .error u
    | .ok (exceptions', f₁) =>
      match dcE avoid false f₁ var with
      | .error u => .error u
      | .ok (var', f₂) =>
        match dcE avoid false f₂ body with
        | .error u => .error u
        | .ok (body', f₃) => .ok (.rescueCase f₃ loc exceptions' var' body', f₃ + 1)
  | .rescueExpr _ loc body rescueCases elsep ensure =>
    match dcE avoid false f body with
    | .error u => .error u
    | .ok (body', f₁) =>
      match dcL avoid f₁ rescueCases with
      | .error u => .error u
      | .ok (rescueCases', f₂) =>
        match dcE avoid false f₂ elsep with
        | .error u => .error u
        | .ok (elsep', f₃) =>
          match dcE avoid false f₃ ensure with
          | .error u => .error u
          | .ok (ensure', f₄) =>
            .ok (.rescueExpr f₄ loc body' rescueCases' elsep' ensure', f₄ + 1)
  | .ident _ loc sym => .ok (.ident f loc sym, f + 1)
  | .localExpr _ loc lv => .ok (.localExpr f loc lv, f + 1)
  | .unresolvedIdent _ loc kind nm => .ok (.unresolvedIdent f loc kind nm, f + 1)
  | .restArg _ loc expr =>
    match dcE avoid false f expr with
    | .error u => .error u
    | .ok (expr', f₁) => .ok (.restArg f₁ loc expr', f₁ + 1)
  | .keywordArg _ loc expr =>
    match dcE avoid false f expr with
    | .error u => .error u
    | .ok (expr', f₁) => .ok (.keywordArg f₁ loc expr', f₁ + 1)
  | .optionalArg _ loc expr dflt =>
    match dcE avoid false f expr with
    | .error u => .error u
    | .ok (expr', f₁) =>
      match dcE avoid false f₁ dflt with
      | .error u => .error u
      | .ok (dflt', f₂) => .ok (.optionalArg f₂ loc expr' dflt', f₂ + 1)
  | .blockArg _ loc expr =>
    match dcE avoid false f expr with
    | .error u => .error u
    | .ok (expr', f₁) => .ok (.blockArg f₁ loc expr', f₁ + 1)
  | .shadowArg _ loc expr =>
    match dcE avoid false f expr with
    | .error u => .error u
    | .ok (expr', f₁) => .ok (.shadowArg f₁ loc expr', f₁ + 1)
  | .assign _ loc lhs rhs =>
    match dcE avoid false f lhs with
    | .error u => .error u
    | .ok (lhs', f₁) =>
      match dcE avoid false f₁ rhs with
      | .error u => .error u
      | .ok (rhs', f₂) => .ok (.assign f₂ loc lhs' rhs', f₂ + 1)
  | .send _ loc recv fn args block =>
    match dcE avoid false f recv with
    | .error u => .error u
    | .ok (recv', f₁) =>
      match dcL avoid f₁ args with
      | .error u => .error u
      | .ok (args', f₂) =>
        match dcO avoid f₂ block with
        | .error u => .error u
        | .ok (block', f₃) => .ok (.send f₃ loc recv' fn args' block', f₃ + 1)
  | .cast _ loc ty arg castKind =>
    match dcE avoid false f arg with
    | .error u => .error u
    | .ok (arg', f₁) => .ok (.cast f₁ loc ty arg' castKind, f₁ + 1)
  | .hash _ loc keys values =>
    match dcL avoid f keys with
    | .error u => .error u
    | .ok (keys', f₁) =>
      match dcL avoid f₁ values with
      | .error u => .error u
      | .ok (values', f₂) => .ok (.hash f₂ loc keys' values', f₂ + 1)
  | .array _ loc elems =>
    match dcL avoid f elems with
    | .error u => .error u
    | .ok (elems', f₁) => .ok (.array f₁ loc elems', f₁ + 1)
  | .literal _ loc value => .ok (.literal f loc value, f + 1)
  | .constantLit _ loc scope cnst =>
    match dcE avoid false f scope with
    | .error u => .error u
    | .ok (scope', f₁) => .ok (.constantLit f₁ loc scope' cnst, f₁ + 1)
  | .arraySplat _ loc arg =>
    match dcE avoid false f arg with
    | .error u => .error u
    | .ok (arg', f₁) => .ok (.arraySplat f₁ loc arg', f₁ + 1)
  | .hashSplat _ loc arg =>
    match dcE avoid false f arg with
    | .error u => .error u
    | .ok (arg', f₁) => .ok (.hashSplat f₁ loc arg', f₁ + 1)
  | .zSuperArgs _ loc => .ok (.zSuperArgs f loc, f + 1)
  | .selfExpr _ loc claz => .ok (.selfExpr f loc claz, f + 1)
  | .blockExpr _ loc args body sym =>
    match dcL avoid f args with
    | .error u => .error u
    | .ok (args', f₁) =>
      match dcE avoid false f₁ body with
      | .error u => .error u
      | .ok (body', f₂) => .ok (.blockExpr f₂ loc args' body' sym, f₂ + 1)
  | .insSeq _ loc stats expr =>
    match dcL avoid f stats with
    | .error u => .error u
    | .ok (stats', f₁) =>
      match dcE avoid false f₁ expr with
      | .error u => .error u
      | .ok (expr', f₂) => .ok (.insSeq f₂ loc stats' expr', f₂ + 1)
  | .emptyTree _ loc => .ok (.emptyTree f loc, f + 1)
  | .treeRef _ _ tree =>
    match tree with
    | .none => .error ()
    | .some target =>
      if Expression.idOf target == avoid then .error ()
      else dcE avoid false f target
termination_by (2 * sizeOf e, 1)

/-- `deepCopyVec` : copy a child vector member-wise, propagating the error. -/
def dcL (avoid : Nat) (f : Nat) (l : ExprList) : Except Unit (ExprList × Nat) :=
  match l with
  | .nil => .ok (.nil, f)
  | .cons x xs =>
    match dcE avoid false f x with
    | .error u => .error u
    | .ok (x', f₁) =>
      match dcL avoid f₁ xs with
      | .error u => .error u
      | .ok (xs', f₂) => .ok (.cons x' xs', f₂)
termination_by (2 * sizeOf l, 0)

/-- Copy of a nullable slot: `block == nullptr ? nullptr : block->_deepCopy(avoid)`. -/
def dcO (avoid : Nat) (f : Nat) (o : ExprOpt) : Except Unit (ExprOpt × Nat) :=
  match o with
  | .none => .ok (.none, f)
  | .some e =>
    match dcE avoid false f e with
    | .error u => .error u
    | .ok (e', f₁) => .ok (.some e', f₁)
termination_by (2 * sizeOf o, 0)

end

/-- `Expression::deepCopy()` : the public entry point.  It calls
`_deepCopy(this, true)` (avoid := the root, root exempt on first visit) and
catches `DeepCopyError`, returning the null "not-copyable" sentinel. -/
def Expression.deepCopy (f : Nat) (e : Expression) : Option (Expression × Nat) :=
  match dcE (Expression.idOf e) true f e with
  | .ok r => some r
  | .error _ => none

/-- Whether an `Except Unit` computation raised (a thrown `DeepCopyError`). -/
def isErr {α : Type} : Except Unit α → Bool
  | .error _ => true
  | .ok _ => false

mutual

/-- Derived failure predicate mirroring `dcE`: true iff `_deepCopy(avoid, root)`
would throw.  (The fresh-id counter plays no role in whether a copy fails.) -/
def failsE (a : Nat) (root : Bool) (e : Expression) : Bool :=
  (!root && Expression.idOf e == a) || failsCore a e
termination_by (2 * sizeOf e + 1, 0)

/-- Derived failure predicate mirroring `dcCore`. -/
def failsCore (a : Nat) (e : Expression) : Bool :=
  match e with
  | .classDef _ _ _ nm ancs rhs _ => failsE a false nm || failsL a ancs || failsL a rhs
  | .methodDef _ _ _ _ args rhs _ => failsL a args || failsE a false rhs
  | .constDef _ _ _ rhs => failsE a false rhs
  | .ifExpr _ _ cond thenp elsep =>
    failsE a false cond || failsE a false thenp || failsE a false elsep
  | .whileExpr _ _ cond body => failsE a false cond || failsE a false body
  | .breakExpr _ _ expr => failsE a false expr
  | .retryExpr _ _ => false
  | .nextExpr _ _ expr => failsE a false expr
  | .returnExpr _ _ expr => failsE a false expr
  | .yieldExpr _ _ expr => failsE a false expr
  | .rescueCase _ _ exceptions var body =>
    failsL a exceptions || failsE a false var || failsE a false body
  | .rescueExpr _ _ body rescueCases elsep ensure =>
    failsE a false body || failsL a rescueCases || failsE a false elsep || failsE a false ensure
  | .ident _ _ _ => false
  | .localExpr _ _ _ => false
  | .unresolvedIdent _ _ _ _ => false
  | .restArg _ _ expr => failsE a false expr
  | .keywordArg _ _ expr => failsE a false expr
  | .optionalArg _ _ expr dflt => failsE a false expr || failsE a false dflt
  | .blockArg _ _ expr => failsE a false expr
  | .shadowArg _ _ expr => failsE a false expr
  | .assign _ _ lhs rhs => failsE a false lhs || failsE a false rhs
  | .send _ _ recv _ args block => failsE a false recv || failsL a args || failsO a block
  | .cast _ _ _ arg _ => failsE a false arg
  | .hash _ _ keys values => failsL a keys || failsL a values
  | .array _ _ elems => failsL a elems
  | .literal _ _ _ => false
  | .constantLit _ _ scope _ => failsE a false scope
  | .arraySplat _ _ arg => failsE a false arg
  | .hashSplat _ _ arg => failsE a false arg
  | .zSuperArgs _ _ => false
  | .selfExpr _ _ _ => false
  | .blockExpr _ _ args body _ => failsL a args || failsE a false body
  | .insSeq _ _ stats expr => failsL a stats || failsE a false expr
  | .emptyTree _ _ => false
  | .treeRef _ _ tree =>
    match tree with
    | .none => true
    | .some target => Expression.idOf target == a || failsE a false target
termination_by (2 * sizeOf e, 1)

/-- Derived failure predicate mirroring `dcL`. -/
def failsL (a : Nat) (l : ExprList) : Bool :=
  match l with
  | .nil => false
  | .cons x xs => failsE a false x || failsL a xs
termination_by (2 * sizeOf l, 0)

/-- Derived failure predicate mirroring `dcO`. -/
def failsO (a : Nat) (o : ExprOpt) : Bool :=
  match o with
  | .none => false
  | .some e => failsE a false e
termination_by (2 * sizeOf o, 0)

end

mutual

/-- Id membership: some node of `e` (including nodes stored behind `TreeRef`
targets) has identity `a`.  This is "the pointer `a` occurs in the tree". -/
def containsE (a : Nat) (e : Expression) : Bool :=
  match e with
  | .classDef i _ _ nm ancs rhs _ =>
    i == a || containsE a nm || containsL a ancs || containsL a rhs
  | .methodDef i _ _ _ args rhs _ => i == a || containsL a args || containsE a rhs
  | .constDef i _ _ rhs => i == a || containsE a rhs
  | .ifExpr i _ cond thenp elsep =>
    i == a || containsE a cond || containsE a thenp || containsE a elsep
  | .whileExpr i _ cond body => i == a || containsE a cond || containsE a body
  | .breakExpr i _ expr => i == a || containsE a expr
  | .retryExpr i _ => i == a
  | .nextExpr i _ expr => i == a || containsE a expr
  | .returnExpr i _ expr => i == a || containsE a expr
  | .yieldExpr i _ expr => i == a || containsE a expr
  | .rescueCase i _ exceptions var body =>
    i == a || containsL a exceptions || containsE a var || containsE a body
  | .rescueExpr i _ body rescueCases elsep ensure =>
    i == a || containsE a body || containsL a rescueCases || containsE a elsep || containsE a ensure
  | .ident i _ _ => i == a
  | .localExpr i _ _ => i == a
  | .unresolvedIdent i _ _ _ => i == a
  | .restArg i _ expr => i == a || containsE a expr
  | .keywordArg i _ expr => i == a || containsE a expr
  | .optionalArg i _ expr dflt => i == a || containsE a expr || containsE a dflt
  | .blockArg i _ expr => i == a || containsE a expr
  | .shadowArg i _ expr => i == a || containsE a expr
  | .assign i _ lhs rhs => i == a || containsE a lhs || containsE a rhs
  | .send i _ recv _ args block =>
    i == a || containsE a recv || containsL a args || containsO a block
  | .cast i _ _ arg _ => i == a || containsE a arg
  | .hash i _ keys values => i == a || containsL a keys || containsL a values
  | .array i _ elems => i == a || containsL a elems
  | .literal i _ _ => i == a
  | .constantLit i _ scope _ => i == a || containsE a scope
  | .arraySplat i _ arg => i == a || containsE a arg
  | .hashSplat i _ arg => i == a || containsE a arg
  | .zSuperArgs i _ => i == a
  | .selfExpr i _ _ => i == a
  | .blockExpr i _ args body _ => i == a || containsL a args || containsE a body
  | .insSeq i _ stats expr => i == a || containsL a stats || containsE a expr
  | .emptyTree i _ => i == a
  | .treeRef i _ tree => i == a || containsO a tree
termination_by (2 * sizeOf e, 1)

/-- Id membership over a child vector. -/
def containsL (a : Nat) (l : ExprList) : Bool :=
  match l with
  | .nil => false
  | .cons x xs => containsE a x || containsL a xs
termination_by (2 * sizeOf l, 0)

/-- Id membership over a nullable slot. -/
def containsO (a : Nat) (o : ExprOpt) : Bool :=
  match o with
  | .none => false
  | .some e => containsE a e
termination_by (2 * sizeOf o, 0)

end

mutual

/-- The claim's failure condition: `e` transitively contains a `TreeRef`
whose target is null, or whose expansion would re-enter the avoid node `a`
(i.e. the target's tree contains a node of identity `a`). -/
def refFailsE (a : Nat) (e : Expression) : Bool :=
  match e with
  | .classDef _ _ _ nm ancs rhs _ => refFailsE a nm || refFailsL a ancs || refFailsL a rhs
  | .methodDef _ _ _ _ args rhs _ => refFailsL a args || refFailsE a rhs
  | .constDef _ _ _ rhs => refFailsE a rhs
  | .ifExpr _ _ cond thenp elsep => refFailsE a cond || refFailsE a thenp || refFailsE a elsep
  | .whileExpr _ _ cond body => refFailsE a cond || refFailsE a body
  | .breakExpr _ _ expr => refFailsE a expr
  | .retryExpr _ _ => false
  | .nextExpr _ _ expr => refFailsE a expr
  | .returnExpr _ _ expr => refFailsE a expr
  | .yieldExpr _ _ expr => refFailsE a expr
  | .rescueCase _ _ exceptions var body =>
    refFailsL a exceptions || refFailsE a var || refFailsE a body
  | .rescueExpr _ _ body rescueCases elsep ensure =>
    refFailsE a body || refFailsL a rescueCases || refFailsE a elsep || refFailsE a ensure
  | .ident _ _ _ => false
  | .localExpr _ _ _ => false
  | .unresolvedIdent _ _ _ _ => false
  | .restArg _ _ expr => refFailsE a expr
  | .keywordArg _ _ expr => refFailsE a expr
  | .optionalArg _ _ expr dflt => refFailsE a expr || refFailsE a dflt
  | .blockArg _ _ expr => refFailsE a expr
  | .shadowArg _ _ expr => refFailsE a expr
  | .assign _ _ lhs rhs => refFailsE a lhs || refFailsE a rhs
  | .send _ _ recv _ args block => refFailsE a recv || refFailsL a args || refFailsO a block
  | .cast _ _ _ arg _ => refFailsE a arg
  | .hash _ _ keys values => refFailsL a keys || refFailsL a values
  | .array _ _ elems => refFailsL a elems
  | .literal _ _ _ => false
  | .constantLit _ _ scope _ => refFailsE a scope
  | .arraySplat _ _ arg => refFailsE a arg
  | .hashSplat _ _ arg => refFailsE a arg
  | .zSuperArgs _ _ => false
  | .selfExpr _ _ _ => false
  | .blockExpr _ _ args body _ => refFailsL a args || refFailsE a body
  | .insSeq _ _ stats expr => refFailsL a stats || refFailsE a expr
  | .emptyTree _ _ => false
  | .treeRef _ _ tree =>
    match tree with
    | .none => true
    | .some target => containsE a target || refFailsE a target
termination_by (2 * sizeOf e, 1)

/-- Claim failure condition over a child vector. -/
def refFailsL (a : Nat) (l : ExprList) : Bool :=
  match l with
  | .nil => false
  | .cons x xs => refFailsE a x || refFailsL a xs
termination_by (2 * sizeOf l, 0)

/-- Claim failure condition over a nullable slot. -/
def refFailsO (a : Nat) (o : ExprOpt) : Bool :=
  match o with
  | .none => false
  | .some e => refFailsE a e
termination_by (2 * sizeOf o, 0)

end

mutual

/-- Pointer well-formedness of an owned (non-root) node with respect to the
avoid id `a`: in a C++ tree of `unique_ptr`-owned nodes, the root's address
can reappear below the root only as the target of a `TreeRef`.  `wfE`
requires the node itself not to be `a` and all owned positions to be
well-formed; a `TreeRef` target is allowed to be the avoid node itself, in
which case nothing below it is constrained (the copier fails before looking
inside, so a re-entrant target is a stub). -/
def wfE (a : Nat) (e : Expression) : Bool :=
  (Expression.idOf e != a) && wfCore a e
termination_by (2 * sizeOf e + 1, 0)

/-- Pointer well-formedness of a node's components (the node's own id is not
constrained: at the root it equals the avoid id by construction). -/
def wfCore (a : Nat) (e : Expression) : Bool :=
  match e with
  | .classDef _ _ _ nm ancs rhs _ => wfE a nm && wfL a ancs && wfL a rhs
  | .methodDef _ _ _ _ args rhs _ => wfL a args && wfE a rhs
  | .constDef _ _ _ rhs => wfE a rhs
  | .ifExpr _ _ cond thenp elsep => wfE a cond && wfE a thenp && wfE a elsep
  | .whileExpr _ _ cond body => wfE a cond && wfE a body
  | .breakExpr _ _ expr => wfE a expr
  | .retryExpr _ _ => true
  | .nextExpr _ _ expr => wfE a expr
  | .returnExpr _ _ expr => wfE a expr
  | .yieldExpr _ _ expr => wfE a expr
  | .rescueCase _ _ exceptions var body => wfL a exceptions && wfE a var && wfE a body
  | .rescueExpr _ _ body rescueCases elsep ensure =>
    wfE a body && wfL a rescueCases && wfE a elsep && wfE a ensure
  | .ident _ _ _ => true
  | .localExpr _ _ _ => true
  | .unresolvedIdent _ _ _ _ => true
  | .restArg _ _ expr => wfE a expr
  | .keywordArg _ _ expr => wfE a expr
  | .optionalArg _ _ expr dflt => wfE a expr && wfE a dflt
  | .blockArg _ _ expr => wfE a expr
  | .shadowArg _ _ expr => wfE a expr
  | .assign _ _ lhs rhs => wfE a lhs && wfE a rhs
  | .send _ _ recv _ args block => wfE a recv && wfL a args && wfO a block
  | .cast _ _ _ arg _ => wfE a arg
  | .hash _ _ keys values => wfL a keys && wfL a values
  | .array _ _ elems => wfL a elems
  | .literal _ _ _ => true
  | .constantLit _ _ scope _ => wfE a scope
  | .arraySplat _ _ arg => wfE a arg
  | .hashSplat _ _ arg => wfE a arg
  | .zSuperArgs _ _ => true
  | .selfExpr _ _ _ => true
  | .blockExpr _ _ args body _ => wfL a args && wfE a body
  | .insSeq _ _ stats expr => wfL a stats && wfE a expr
  | .emptyTree _ _ => true
  | .treeRef _ _ tree =>
    match tree with
    | .none => true
    | .some target => Expression.idOf target == a || wfE a target
termination_by (2 * sizeOf e, 1)

/-- Pointer well-formedness over a child vector. -/
def wfL (a : Nat) (l : ExprList) : Bool :=
  match l with
  | .nil => true
  | .cons x xs => wfE a x && wfL a xs
termination_by (2 * sizeOf l, 0)

/-- Pointer well-formedness over a nullable slot. -/
def wfO (a : Nat) (o : ExprOpt) : Bool :=
  match o with
  | .none => true
  | .some e => wfE a e
termination_by (2 * sizeOf o, 0)

end

mutual

/-- Structural normal form: identities are erased (set to 0) and every
`TreeRef` indirection is replaced by the tree it denotes (`none` if a null
reference is reached).  Two trees are structurally equal iff their normal
forms coincide; all non-owning payloads (locations, symbols, names, literal
values, kinds, `MethodDef.isSelf`, `Block.symbol`) are part of the form. -/
def normE (e : Expression) : Option Expression :=
  match e with
  | .classDef _ loc sym nm ancs rhs kind =>
    match normE nm with
    | .none => .none
    | .some nm' =>
      match normL ancs with
      | .none => .none
      | .some ancs' =>
        match normL rhs with
        | .none => .none
        | .some rhs' => .some (.classDef 0 loc sym nm' ancs' rhs' kind)
  | .methodDef _ loc sym nm args rhs isSelf =>
    match normL args with
    | .none => .none
    | .some args' =>
      match normE rhs with
      | .none => .none
      | .some rhs' => .some (.methodDef 0 loc sym nm args' rhs' isSelf)
  | .constDef _ loc sym rhs =>
    match normE rhs with
    | .none => .none
    | .some rhs' => .some (.constDef 0 loc sym rhs')
  | .ifExpr _ loc cond thenp elsep =>
    match normE cond with
    | .none => .none
    | .some cond' =>
      match normE thenp with
      | .none => .none
      | .some thenp' =>
        match normE elsep with
        | .none => .none
        | .some elsep' => .some (.ifExpr 0 loc cond' thenp' elsep')
  | .whileExpr _ loc cond body =>
    match normE cond with
    | .none => .none
    | .some cond' =>
      match normE body with
      | .none => .none
      | .some body' => .some (.whileExpr 0 loc cond' body')
  | .breakExpr _ loc expr =>
    match normE expr with
    | .none => .none
    | .some expr' => .some (.breakExpr 0 loc expr')
  | .retryExpr _ loc => .some (.retryExpr 0 loc)
  | .nextExpr _ loc expr =>
    match normE expr with
    | .none => .none
    | .some expr' => .some (.nextExpr 0 loc expr')
  | .returnExpr _ loc expr =>
    match normE expr with
    | .none => .none
    | .some expr' => .some (.returnExpr 0 loc expr')
  | .yieldExpr _ loc expr =>
    match normE expr with
    | .none => .none
    | .some expr' => .some (.yieldExpr 0 loc expr')
  | .rescueCase _ loc exceptions var body =>
    match normL exceptions with
    | .none => .none
    | .some exceptions' =>
      match normE var with
      | .none => .none
      | .some var' =>
        match normE body with
        | .none => .none
        | .some body' => .some (.rescueCase 0 loc exceptions' var' body')
  | .rescueExpr _ loc body rescueCases elsep ensure =>
    match normE body with
    | .none => .none
    | .some body' =>
      match normL rescueCases with
      | .none => .none
      | .some rescueCases' =>
        match normE elsep with
        | .none => .none
        | .some elsep' =>
          match normE ensure with
          | .none => .none
          | .some ensure' => .some (.rescueExpr 0 loc body' rescueCases' elsep' ensure')
  | .ident _ loc sym => .some (.ident 0 loc sym)
  | .localExpr _ loc lv => .some (.localExpr 0 loc lv)
  | .unresolvedIdent _ loc kind nm => .some (.unresolvedIdent 0 loc kind nm)
  | .restArg _ loc expr =>
    match normE expr with
    | .none => .none
    | .some expr' => .some (.restArg 0 loc expr')
  | .keywordArg _ loc expr =>
    match normE expr with
    | .none => .none
    | .some expr' => .some (.keywordArg 0 loc expr')
  | .optionalArg _ loc expr dflt =>
    match normE expr with
    | .none => .none
    | .some expr' =>
      match normE dflt with
      | .none => .none
      | .some dflt' => .some (.optionalArg 0 loc expr' dflt')
  | .blockArg _ loc expr =>
    match normE expr with
    | .none => .none
    | .some expr' => .some (.blockArg 0 loc expr')
  | .shadowArg _ loc expr =>
    match normE expr with
    | .none => .none
    | .some expr' => .some (.shadowArg 0 loc expr')
  | .assign _ loc lhs rhs =>
    match normE lhs with
    | .none => .none
    | .some lhs' =>
      match normE rhs with
      | .none => .none
      | .some rhs' => .some (.assign 0 loc lhs' rhs')
  | .send _ loc recv fn args block =>
    match normE recv with
    | .none => .none
    | .some recv' =>
      match normL args with
      | .none => .none
      | .some args' =>
        match normO block with
        | .none => .none
        | .some block' => .some (.send 0 loc recv' fn args' block')
  | .cast _ loc ty arg castKind =>
    match normE arg with
    | .none => .none
    | .some arg' => .some (.cast 0 loc ty arg' castKind)
  | .hash _ loc keys values =>
    match normL keys with
    | .none => .none
    | .some keys' =>
      match normL values with
      | .none => .none
      | .some values' => .some (.hash 0 loc keys' values')
  | .array _ loc elems =>
    match normL elems with
    | .none => .none
    | .some elems' => .some (.array 0 loc elems')
  | .literal _ loc value => .some (.literal 0 loc value)
  | .constantLit _ loc scope cnst =>
    match normE scope with
    | .none => .none
    | .some scope' => .some (.constantLit 0 loc scope' cnst)
  | .arraySplat _ loc arg =>
    match normE arg with
    | .none => .none
    | .some arg' => .some (.arraySplat 0 loc arg')
  | .hashSplat _ loc arg =>
    match normE arg with
    | .none => .none
    | .some arg' => .some (.hashSplat 0 loc arg')
  | .zSuperArgs _ loc => .some (.zSuperArgs 0 loc)
  | .selfExpr _ loc claz => .some (.selfExpr 0 loc claz)
  | .blockExpr _ loc args body sym =>
    match normL args with
    | .none => .none
    | .some args' =>
      match normE body with
      | .none => .none
      | .some body' => .some (.blockExpr 0 loc args' body' sym)
  | .insSeq _ loc stats expr =>
    match normL stats with
    | .none => .none
    | .some stats' =>
      match normE expr with
      | .none => .none
      | .some expr' => .some (.insSeq 0 loc stats' expr')
  | .emptyTree _ loc => .some (.emptyTree 0 loc)
  | .treeRef _ _ tree =>
    match tree with
    | .none => .none
    | .some target => normE target
termination_by (2 * sizeOf e, 1)

/-- Structural normal form of a child vector. -/
def normL (l : ExprList) : Option ExprList :=
  match l with
  | .nil => .some .nil
  | .cons x xs =>
    match normE x with
    | .none => .none
    | .some x' =>
      match normL xs with
      | .none => .none
      | .some xs' => .some (.cons x' xs')
termination_by (2 * sizeOf l, 0)

/-- Structural normal form of a nullable slot (an absent block stays absent). -/
def normO (o : ExprOpt) : Option ExprOpt :=
  match o with
  | .none => .some .none
  | .some e =>
    match normE e with
    | .none => .none
    | .some e' => .some (.some e')
termination_by (2 * sizeOf o, 0)

end

/-- Length of a child vector. -/
def lengthEL : ExprList → Nat
  | .nil => 0
  | .cons _ xs => lengthEL xs + 1

/-- Indexing into a child vector (`rhs[i]`). -/
def getEL : ExprList → Nat → Option Expression
  | .nil, _ => none
  | .cons x _, 0 => some x
  | .cons _ xs, n + 1 => getEL xs n

/-- `vector::insert(begin() + n, x)`; positions past the end leave the vector
unchanged (the rewriter only inserts at valid positions). -/
def insertEL : ExprList → Nat → Expression → ExprList
  | l, 0, x => .cons x l
  | .nil, _ + 1, _ => .nil
  | .cons h t, n + 1, x => .cons h (insertEL t n x)

/-! ## The Command DSL rewriter (src/dsl/Command.cc)

Interned name and symbol handles are `Nat` tokens; the three names used by
the rewriter (`core::Names::Command()`, `core::Names::Opus()`,
`core::Names::call()`) and `core::Symbols::root()` are fixed distinct
tokens. -/

/-- Interned constant name `Command`. -/
def namesCommand : Nat := 1001

/-- Interned constant name `Opus`. -/
def namesOpus : Nat := 1002

/-- Interned method name `call`. -/
def namesCall : Nat := 1003

/-- `core::Symbols::root()`. -/
def symbolsRoot : Nat := 2000

/-- `isCommand(ctx, klass)` : kind is `Class`, ancestors non-empty, first
ancestor is `ConstantLit Command` whose scope is `ConstantLit Opus` whose
scope is `EmptyTree` or an `Ident` resolving to the root symbol. -/
def isCommand (k : Expression) : Bool :=
  match k with
  | .classDef _ _ _ _ ancs _ kind =>
    match kind with
    | .moduleKind => false
    | .classKind =>
      match ancs with
      | .nil => false
      | .cons front _ =>
        match front with
        | .constantLit _ _ scope cnst =>
          if cnst != namesCommand then false
          else
            match scope with
            | .constantLit _ _ scope2 cnst2 =>
              if cnst2 != namesOpus then false
              else
                match scope2 with
                | .emptyTree _ _ => true
                | .ident _ _ sym => sym == symbolsRoot
                | _ => false
            | _ => false
        | _ => false
  | _ => false

/-- The scan loop of `Command::patchDSL`: index and node of the first
`MethodDef` in the body whose name is `call`. -/
def findCall : ExprList → Option (Nat × Expression)
  | .nil => none
  | .cons s rest =>
    match s with
    | .methodDef _ _ _ nm _ _ _ =>
      if nm == namesCall then some (0, s)
      else
        match findCall rest with
        | none => none
        | some (i, c) => some (i + 1, c)
    | _ =>
      match findCall rest with
      | none => none
      | some (i, c) => some (i + 1, c)

/-- Is the node a `Send`? (`ast::cast_tree<ast::Send>` succeeding). -/
def isSendNode : Expression → Bool
  | .send _ _ _ _ _ _ => true
  | _ => false

/-- The signature heuristic: the statement is a `Send` whose receiver is
itself a `Send`. -/
def sigShape : Expression → Bool
  | .send _ _ recv _ _ _ => isSendNode recv
  | _ => false

/-- The `newArgs` loop: each argument is copied with the public
`arg->deepCopy()`, threading the fresh-id counter; a failed copy is
surfaced as `none`. -/
def dcArgs (f : Nat) : ExprList → Option (ExprList × Nat)
  | .nil => some (.nil, f)
  | .cons x xs =>
    match Expression.deepCopy f x with
    | none => none
    | some (x', f₁) =>
      match dcArgs f₁ xs with
      | none => none
      | some (xs', f₂) => some (.cons x' xs', f₂)

/-- Modelled from the spec: `ast::MK::Untyped(loc)` (ast/Helpers.h is not
part of the sources).  The spec treats it as an opaque constructor for the
synthesized method's body, `Untyped(call.loc)`; it is modelled as a fixed
node carrying that location. -/
def MK.Untyped (loc : Nat) : Expression := .emptyTree 0 loc

/-- Modelled from the spec: `ast::MK::Method(loc, name, args, rhs, isSelf)`
(ast/Helpers.h is not part of the sources).  Per the spec it builds
`MethodDef(call.loc, call.name, newArgs, Untyped(call.loc), isSelf = true)`;
the symbol is a fresh placeholder (token 0). -/
def MK.Method (loc : Nat) (nm : Nat) (args : ExprList) (rhs : Expression)
    (isSelf : Bool) : Expression :=
  .methodDef 0 loc 0 nm args rhs isSelf

/-- `Command::patchDSL`.  Returns the (possibly rewritten) class.  The C++
code inserts the raw result of `sig->deepCopy()` without a null check; in the
model a failed internal deep copy yields `none` (trees reaching the DSL
passes are reference-free, so this corner is unreachable in practice). -/
def patchDSL (f : Nat) (k : Expression) : Option Expression :=
  match k with
  | .classDef ki loc sym nm ancs rhs kind =>
    if !isCommand (.classDef ki loc sym nm ancs rhs kind) then
      some (.classDef ki loc sym nm ancs rhs kind)
    else
      match findCall rhs with
      | none => some (.classDef ki loc sym nm ancs rhs kind)
      | some (i, callE) =>
        if i == 0 then some (.classDef ki loc sym nm ancs rhs kind)
        else
          match getEL rhs (i - 1) with
          | none => some (.classDef ki loc sym nm ancs rhs kind)
          | some sigE =>
            if sigShape sigE then
              match callE with
              | .methodDef _ cloc _ cname cargs _ _ =>
                match dcArgs f cargs with
                | none => none
                | some (newArgs, f₁) =>
                  match Expression.deepCopy f₁ sigE with
                  | none => none
                  | some (sigCopy, _) =>
                    some (.classDef ki loc sym nm ancs
                      (insertEL (insertEL rhs (i + 1) sigCopy) (i + 2)
                        (MK.Method cloc cname newArgs (MK.Untyped cloc) true)) kind)
              | _ => some (.classDef ki loc sym nm ancs rhs kind)
            else some (.classDef ki loc sym nm ancs rhs kind)
  | e => some e

/-! ## The LSP loop (src/main/LSPLoop.cc) -/

/-- `LSPMethod::Kind`. -/
inductive LSPMethodKind where
  | clientInitiated
  | serverInitiated
  | both
deriving DecidableEq

/-- An entry of the static method registry. -/
structure LSPMethod where
  name : String
  isNotification : Bool
  kind : LSPMethodKind
  isSupported : Bool
deriving DecidableEq

/-- Modelled from the spec: the static registry `LSP::ALL` lives in the
missing header LSPLoop.h; its entries are taken from the spec's supported
operations (§4.4, §6). -/
def lspRegistry : List LSPMethod :=
  [⟨"initialize", false, .clientInitiated, true⟩,
   ⟨"initialized", true, .clientInitiated, true⟩,
   ⟨"shutdown", false, .clientInitiated, true⟩,
   ⟨"exit", true, .clientInitiated, true⟩,
   ⟨"textDocument/didChange", true, .clientInitiated, true⟩,
   ⟨"workspace/didChangeWatchedFiles", true, .clientInitiated, true⟩,
   ⟨"textDocument/documentSymbol", false, .clientInitiated, true⟩,
   ⟨"ruby-typer/readFile", false, .serverInitiated, true⟩,
   ⟨"textDocument/publishDiagnostics", true, .serverInitiated, true⟩]

/-- `LSP::getMethod(name)` : linear scan of the registry; an unknown name is
synthesized as `{name, isNotification = true, ClientInitiated, unsupported}`. -/
def getMethod (all : List LSPMethod) (name : String) : LSPMethod :=
  match all.find? (fun candidate => candidate.name == name) with
  | some c => c
  | none => ⟨name, true, .clientInitiated, false⟩

/-- `LSPErrorCodes::MethodNotFound`. -/
def methodNotFound : Int := -32601

/-- What the dispatcher does with one inbound non-reply message. -/
inductive Outcome where
  | noReply
  | resultReply
  | errorReply (code : Int)
  | exitLoop
deriving DecidableEq

/-- The dispatch skeleton of `runLSP` for a non-reply message: notifications
produce no reply (and `exit` terminates the loop); requests answer
`initialize`, `shutdown` and `textDocument/documentSymbol` with a result and
everything else with a `MethodNotFound` error envelope. -/
def processMessage (all : List LSPMethod) (name : String) : Outcome :=
  let m := getMethod all name
  if m.isNotification then
    if m.name == "exit" then .exitLoop else .noReply
  else if m.name == "initialize" || m.name == "shutdown"
      || m.name == "textDocument/documentSymbol" then .resultReply
  else .errorReply methodNotFound

/-- An outbound server-initiated send: a notification (`sendNotification`) or
a request (`sendRequest`). -/
inductive SendOp where
  | notification
  | request
deriving DecidableEq

/-- The generated id string `fmt::format("ruby-typer-req-{}", counter)`. -/
def requestIdString (c : Nat) : String := "ruby-typer-req-" ++ toString c

/-- One outbound send.  Both `sendNotification` and `sendRequest` execute
`++requestCounter` and format the id string, but only `sendRequest` attaches
the id to the outgoing message. -/
def sendStep (c : Nat) (op : SendOp) : Nat × Option String :=
  match op with
  | .notification => (c + 1, none)
  | .request => (c + 1, some (requestIdString (c + 1)))

/-- The trace of a sequence of outbound sends: for each send, the counter
value it used and the id it attached (if any). -/
def sendTrace (c : Nat) : List SendOp → List (Nat × Option String)
  | [] => []
  | op :: ops => (c + 1, (sendStep c op).2) :: sendTrace (c + 1) ops

/-- Modelled from the spec: `requestCounter`'s initializer is in the missing
header; the spec's "counter monotonically increasing from 1" together with
the pre-increment in the sources gives initial value 0. -/
def initialRequestCounter : Nat := 0

/-- One pending entry of `awaitingResponse`: the pair of one-shot completion
callbacks, modelled as opaque tokens. -/
structure ResponseHandler where
  onResult : Nat
  onError : Nat
deriving DecidableEq

/-- The shape of an inbound message as inspected by `handleReplies`:
presence of top-level `result` and `error` members, and the optional `id`. -/
structure RMsg where
  hasResult : Bool
  hasError : Bool
  id : Option String

/-- The `awaitingResponse` map (`std::map<std::string, ResponseHandler>`),
modelled as an association list with unique keys. -/
abbrev Awaiting := List (String × ResponseHandler)

/-- `awaitingResponse.find(key)`. -/
def findResp : Awaiting → String → Option ResponseHandler
  | [], _ => none
  | (k, h) :: rest, key => if k == key then some h else findResp rest key

/-- `awaitingResponse.erase(fnd)` : remove the entry with the given key. -/
def eraseResp : Awaiting → String → Awaiting
  | [], _ => []
  | (k, h) :: rest, key =>
    if k == key then eraseResp rest key else (k, h) :: eraseResp rest key

/-- Result of `handleReplies`: whether the message was consumed (the loop
`continue`s without dispatch), the updated pending map, and the callback
token invoked (if any). -/
structure ReplyOutcome where
  consumed : Bool
  awaiting : Awaiting
  invoked : Option Nat

/-- `LSPLoop::handleReplies` : a message with a top-level `result` member is
consumed; if it has an `id` matching a pending entry, the entry's `onResult`
is moved out, the entry erased, and the callback invoked.  Same for `error`
with `onError`.  Anything else is not consumed and goes to method dispatch. -/
def handleReplies (aw : Awaiting) (m : RMsg) : ReplyOutcome :=
  if m.hasResult then
    match m.id with
    | some key =>
      match findResp aw key with
      | some h => ⟨true, eraseResp aw key, some h.onResult⟩
      | none => ⟨true, aw, none⟩
    | none => ⟨true, aw, none⟩
  else if m.hasError then
    match m.id with
    | some key =>
      match findResp aw key with
      | some h => ⟨true, eraseResp aw key, some h.onError⟩
      | none => ⟨true, aw, none⟩
    | none => ⟨true, aw, none⟩
  else ⟨false, aw, none⟩

/-- `runLSP` routes a message to method dispatch only when `handleReplies`
did not consume it. -/
def routedToDispatch (aw : Awaiting) (m : RMsg) : Bool :=
  !(handleReplies aw m).consumed

/-- The deep-copy loop of `LSPLoop::runSlowPath`: for each slot of the
sparse `indexed` cache, a null slot is skipped (`if (tree)`) and otherwise
the raw result of `tree->deepCopy()` — null on failure — is pushed onto the
working vector `indexedCopies`. -/
def slowPathCopies (f : Nat) : List (Option Expression) → List (Option Expression) × Nat
  | [] => ([], f)
  | none :: rest => slowPathCopies f rest
  | some t :: rest =>
    match Expression.deepCopy f t with
    | none =>
      let r := slowPathCopies f rest
      (none :: r.1, r.2)
    | some (c, f₁) =>
      let r := slowPathCopies f₁ rest
      (some c :: r.1, r.2)

/-- Reformulation used to state what the copy loop actually does: copy the
non-null cached trees in order, keeping failed copies as null entries. -/
def copySeq (f : Nat) : List Expression → List (Option Expression) × Nat
  | [] => ([], f)
  | t :: rest =>
    match Expression.deepCopy f t with
    | none =>
      let r := copySeq f rest
      (none :: r.1, r.2)
    | some (c, f₁) =>
      let r := copySeq f₁ rest
      (some c :: r.1, r.2)

/-! ## Line/column conversion (LSPLoop::loc2Range) -/

/-- An internal (1-based) line/column pair, `core::Loc::Detail`.  Lines and
columns are `u4` values. -/
structure Detail where
  line : Nat
  column : Nat
deriving DecidableEq

/-- An LSP (0-based) position. -/
structure LSPPosition where
  line : Nat
  character : Nat
deriving DecidableEq

/-- An LSP range (`start` / `end`). -/
structure LSPRange where
  start : LSPPosition
  endPos : LSPPosition
deriving DecidableEq

/-- `2^32`, the modulus of `u4` arithmetic. -/
def u32 : Nat := 4294967296

/-- The `- 1` applied to a `u4` line or column, with unsigned wrap-around. -/
def dec1 (x : Nat) : Nat := (x + (u32 - 1)) % u32

/-- `LSPLoop::loc2Range` : "All LSP numbers are zero-based, ours are
1-based", subtracting 1 from start line, start character, end line, end
character. -/
def loc2Range (p : Detail × Detail) : LSPRange :=
  ⟨⟨dec1 p.1.line, dec1 p.1.column⟩, ⟨dec1 p.2.line, dec1 p.2.column⟩⟩

/-- The conversion as a map from the 1-based representation (a `u4`
coordinate with `1 ≤ x < 2^32`) to the 0-based representation
(`0 ≤ y < 2^32 - 1`). -/
def convCoord (x : {x : Nat // 1 ≤ x ∧ x < u32}) : {y : Nat // y < u32 - 1} :=
  ⟨dec1 x.1, by
    obtain ⟨x, h1, h2⟩ := x
    have hu : u32 = 4294967296 := rfl
    simp only [dec1, hu] at h2 ⊢
    omega⟩

/-! ## Deep-copy failure characterization -/

/-- If a node's own identity is `a`, then `a` occurs in it. -/
theorem containsE_of_idOf (a : Nat) (t : Expression) (h : Expression.idOf t = a) :
    containsE a t = true := by
  cases t <;> simp_all [containsE, Expression.idOf]

set_option maxHeartbeats 1000000 in
/-- The copy functions raise exactly when the derived failure predicates say
so; in particular whether a copy fails is independent of the fresh-id
counter. -/
theorem isErr_dcE_eq_failsE (avoid : Nat) (root : Bool) (f : Nat) (e : Expression) :
    isErr (dcE avoid root f e) = failsE avoid root e := by
  apply dcE.induct avoid
    (fun root f e => isErr (dcE avoid root f e) = failsE avoid root e)
    (fun f e => isErr (dcCore avoid f e) = failsCore avoid e)
    (fun f o => isErr (dcO avoid f o) = failsO avoid o)
    (fun f l => isErr (dcL avoid f l) = failsL avoid l)
  case case2 =>
    intro root f e h ih
    have hb : (!root && Expression.idOf e == avoid) = false := by
      cases hx : (!root && Expression.idOf e == avoid)
      · rfl
      · exact absurd hx h
    simp [dcE, failsE, hb, ih]
  all_goals intros
  all_goals simp_all [dcE, dcCore, dcL, dcO, failsE, failsCore, failsL, failsO, isErr]

set_option maxHeartbeats 1000000 in
/-- In a pointer-well-formed tree, if no `TreeRef` issue is reachable then
the avoid id does not occur at all. -/
theorem containsE_eq_false_of_wf (a : Nat) (e : Expression) :
    wfE a e = true → refFailsE a e = false → containsE a e = false := by
  apply containsE.induct a
    (fun e => wfE a e = true → refFailsE a e = false → containsE a e = false)
    (fun o => wfO a o = true → refFailsO a o = false → containsO a o = false)
    (fun l => wfL a l = true → refFailsL a l = false → containsL a l = false)
  case case35 =>
    intro i loc tree ih hwf hrf
    cases tree
    all_goals simp_all [refFailsE, refFailsO, containsE, containsO, wfE, wfCore, wfO,
      Expression.idOf]
  all_goals intros
  all_goals simp_all [containsE, containsL, containsO, refFailsE, refFailsL, refFailsO,
    wfE, wfCore, wfL, wfO, Expression.idOf]

set_option maxHeartbeats 1000000 in
/-- In a pointer-well-formed tree (components well-formed; the root's own id
is the avoid id) the copy-failure predicate coincides with the claim's
condition: a reachable `TreeRef` that is null or whose expansion re-enters
the avoid node. -/
theorem failsCore_eq_refFailsE_of_wf (a : Nat) (e : Expression) :
    wfCore a e = true → failsCore a e = refFailsE a e := by
  apply failsCore.induct a
    (fun root e => wfE a e = true → failsE a root e = refFailsE a e)
    (fun e => wfCore a e = true → failsCore a e = refFailsE a e)
    (fun o => wfO a o = true → failsO a o = refFailsO a o)
    (fun l => wfL a l = true → failsL a l = refFailsL a l)
  case case37 =>
    intro i loc target ih hwf
    simp only [wfCore, Bool.or_eq_true] at hwf
    simp only [failsCore, refFailsE]
    rcases hwf with h | h
    · have hc := containsE_of_idOf a target (by simpa using h)
      simp [h, hc]
    · have hrw := ih h
      have hne : (Expression.idOf target == a) = false := by
        simp only [wfE, Bool.and_eq_true, bne_iff_ne] at h
        simp [h.1]
      rw [hne, Bool.false_or, hrw]
      cases hrf : refFailsE a target with
      | true => simp
      | false =>
        have hcf := containsE_eq_false_of_wf a target h hrf
        simp [hcf]
  all_goals intros
  all_goals simp_all [failsE, failsCore, failsL, failsO, refFailsE, refFailsL, refFailsO,
    wfE, wfCore, wfL, wfO, Expression.idOf]

set_option maxHeartbeats 2000000 in
mutual

/-- A successful `_deepCopy` produces a structurally equal tree whose node
ids lie exactly in the freshly allocated range `[f, f')`: the copy is
structurally equal to the original and shares no node identity with any
tree whose ids lie below `f`. -/
theorem copyOkE (a : Nat) (root : Bool) (f : Nat) (e c : Expression) (f' : Nat)
    (h : dcE a root f e = .ok (c, f')) :
    normE c = normE e ∧ f ≤ f' ∧ (∀ j, containsE j c = true → f ≤ j ∧ j < f') := by
  simp only [dcE] at h
  split at h
  · exact Except.noConfusion h
  · exact copyOkCore a f e c f' h
termination_by 2 * sizeOf e + 1

/-- Per-node version of `copyOkE`. -/
theorem copyOkCore : ∀ (a f : Nat) (e c : Expression) (f' : Nat),
    dcCore a f e = .ok (c, f') →
    normE c = normE e ∧ f ≤ f' ∧ (∀ j, containsE j c = true → f ≤ j ∧ j < f')
  | a, f, .classDef i loc sym nm ancs rhs kind, c, f0, h => by
    cases h1 : dcE a false f nm with
    | error u => simp only [dcCore, h1] at h; exact Except.noConfusion h
    | ok p1 =>
      obtain ⟨nm1, f1⟩ := p1
      cases h2 : dcL a f1 ancs with
      | error u => simp only [dcCore, h1, h2] at h; exact Except.noConfusion h
      | ok p2 =>
        obtain ⟨ancs1, f2⟩ := p2
        cases h3 : dcL a f2 rhs with
        | error u => simp only [dcCore, h1, h2, h3] at h; exact Except.noConfusion h
        | ok p3 =>
          obtain ⟨rhs1, f3⟩ := p3
          simp only [dcCore, h1, h2, h3, Except.ok.injEq, Prod.mk.injEq] at h
          obtain ⟨hc, hf⟩ := h
          subst hc; subst hf
          obtain ⟨hn1, hle1, hr1⟩ := copyOkE a false f nm nm1 f1 h1
          obtain ⟨hn2, hle2, hr2⟩ := copyOkL a f1 ancs ancs1 f2 h2
          obtain ⟨hn3, hle3, hr3⟩ := copyOkL a f2 rhs rhs1 f3 h3
          refine ⟨?_, by omega, ?_⟩
          · simp only [normE]
            rw [hn1, hn2, hn3]
          · intro j hj
            simp only [containsE, Bool.or_eq_true, beq_iff_eq] at hj
            rcases hj with (((hj | hj) | hj) | hj)
            · omega
            · have := hr1 j hj; omega
            · have := hr2 j hj; omega
            · have := hr3 j hj; omega
  | a, f, .methodDef i loc sym nm args rhs isSelf, c, f0, h => by
    cases h1 : dcL a f args with
    | error u => simp only [dcCore, h1] at h; exact Except.noConfusion h
    | ok p1 =>
      obtain ⟨args1, f1⟩ := p1
      cases h2 : dcE a false f1 rhs with
      | error u => simp only [dcCore, h1, h2] at h; exact Except.noConfusion h
      | ok p2 =>
        obtain ⟨rhs1, f2⟩ := p2
        simp only [dcCore, h1, h2, Except.ok.injEq, Prod.mk.injEq] at h
        obtain ⟨hc, hf⟩ := h
        subst hc; subst hf
        obtain ⟨hn1, hle1, hr1⟩ := copyOkL a f args args1 f1 h1
        obtain ⟨hn2, hle2, hr2⟩ := copyOkE a false f1 rhs rhs1 f2 h2
        refine ⟨?_, by omega, ?_⟩
        · simp only [normE]
          rw [hn1, hn2]
        · intro j hj
          simp only [containsE, Bool.or_eq_true, beq_iff_eq] at hj
          rcases hj with ((hj | hj) | hj)
          · omega
          · have := hr1 j hj; omega
          · have := hr2 j hj; omega
  | a, f, .constDef i loc sym rhs, c, f0, h => by
    cases h1 : dcE a false f rhs with
    | error u => simp only [dcCore, h1] at h; exact Except.noConfusion h
    | ok p1 =>
      obtain ⟨rhs1, f1⟩ := p1
      simp only [dcCore, h1, Except.ok.injEq, Prod.mk.injEq] at h
      obtain ⟨hc, hf⟩ := h
      subst hc; subst hf
      obtain ⟨hn1, hle1, hr1⟩ := copyOkE a false f rhs rhs1 f1 h1
      refine ⟨?_, by omega, ?_⟩
      · simp only [normE]
        rw [hn1]
      · intro j hj
        simp only [containsE, Bool.or_eq_true, beq_iff_eq] at hj
        rcases hj with (hj | hj)
        · omega
        · have := hr1 j hj; omega
  | a, f, .ifExpr i loc cond thenp elsep, c, f0, h => by
    cases h1 : dcE a false f cond with
    | error u => simp only [dcCore, h1] at h; exact Except.noConfusion h
    | ok p1 =>
      obtain ⟨cond1, f1⟩ := p1
      cases h2 : dcE a false f1 thenp with
      | error u => simp only [dcCore, h1, h2] at h; exact Except.noConfusion h
      | ok p2 =>
        obtain ⟨thenp1, f2⟩ := p2
        cases h3 : dcE a false f2 elsep with
        | error u => simp only [dcCore, h1, h2, h3] at h; exact Except.noConfusion h
        | ok p3 =>
          obtain ⟨elsep1, f3⟩ := p3
          simp only [dcCore, h1, h2, h3, Except.ok.injEq, Prod.mk.injEq] at h
          obtain ⟨hc, hf⟩ := h
          subst hc; subst hf
          obtain ⟨hn1, hle1, hr1⟩ := copyOkE a false f cond cond1 f1 h1
          obtain ⟨hn2, hle2, hr2⟩ := copyOkE a false f1 thenp thenp1 f2 h2
          obtain ⟨hn3, hle3, hr3⟩ := copyOkE a false f2 elsep elsep1 f3 h3
          refine ⟨?_, by omega, ?_⟩
          · simp only [normE]
            rw [hn1, hn2, hn3]
          · intro j hj
            simp only [containsE, Bool.or_eq_true, beq_iff_eq] at hj
            rcases hj with (((hj | hj) | hj) | hj)
            · omega
            · have := hr1 j hj; omega
            · have := hr2 j hj; omega
            · have := hr3 j hj; omega
  | a, f, .whileExpr i loc cond body, c, f0, h => by
    cases h1 : dcE a false f cond with
    | error u => simp only [dcCore, h1] at h; exact Except.noConfusion h
    | ok p1 =>
      obtain ⟨cond1, f1⟩ := p1
      cases h2 : dcE a false f1 body with
      | error u => simp only [dcCore, h1, h2] at h; exact Except.noConfusion h
      | ok p2 =>
        obtain ⟨body1, f2⟩ := p2
        simp only [dcCore, h1, h2, Except.ok.injEq, Prod.mk.injEq] at h
        obtain ⟨hc, hf⟩ := h
        subst hc; subst hf
        obtain ⟨hn1, hle1, hr1⟩ := copyOkE a false f cond cond1 f1 h1
        obtain ⟨hn2, hle2, hr2⟩ := copyOkE a false f1 body body1 f2 h2
        refine ⟨?_, by omega, ?_⟩
        · simp only [normE]
          rw [hn1, hn2]
        · intro j hj
          simp only [containsE, Bool.or_eq_true, beq_iff_eq] at hj
          rcases hj with ((hj | hj) | hj)
          · omega
          · have := hr1 j hj; omega
          · have := hr2 j hj; omega
  | a, f, .breakExpr i loc expr, c, f0, h => by
    cases h1 : dcE a false f expr with
    | error u => simp only [dcCore, h1] at h; exact Except.noConfusion h
    | ok p1 =>
      obtain ⟨expr1, f1⟩ := p1
      simp only [dcCore, h1, Except.ok.injEq, Prod.mk.injEq] at h
      obtain ⟨hc, hf⟩ := h
      subst hc; subst hf
      obtain ⟨hn1, hle1, hr1⟩ := copyOkE a false f expr expr1 f1 h1
      refine ⟨?_, by omega, ?_⟩
      · simp only [normE]
        rw [hn1]
      · intro j hj
        simp only [containsE, Bool.or_eq_true, beq_iff_eq] at hj
        rcases hj with (hj | hj)
        · omega
        · have := hr1 j hj; omega
  | a, f, .retryExpr i loc, c, f0, h => by
    simp only [dcCore, Except.ok.injEq, Prod.mk.injEq] at h
    obtain ⟨hc, hf⟩ := h
    subst hc; subst hf
    refine ⟨?_, by omega, ?_⟩
    · simp [normE]
    · intro j hj
      simp only [containsE, Bool.or_eq_true, beq_iff_eq] at hj
      omega
  | a, f, .nextExpr i loc expr, c, f0, h => by
    cases h1 : dcE a false f expr with
    | error u => simp only [dcCore, h1] at h; exact Except.noConfusion h
    | ok p1 =>
      obtain ⟨expr1, f1⟩ := p1
      simp only [dcCore, h1, Except.ok.injEq, Prod.mk.injEq] at h
      obtain ⟨hc, hf⟩ := h
      subst hc; subst hf
      obtain ⟨hn1, hle1, hr1⟩ := copyOkE a false f expr expr1 f1 h1
      refine ⟨?_, by omega, ?_⟩
      · simp only [normE]
        rw [hn1]
      · intro j hj
        simp only [containsE, Bool.or_eq_true, beq_iff_eq] at hj
        rcases hj with (hj | hj)
        · omega
        · have := hr1 j hj; omega
  | a, f, .returnExpr i loc expr, c, f0, h => by
    cases h1 : dcE a false f expr with
    | error u => simp only [dcCore, h1] at h; exact Except.noConfusion h
    | ok p1 =>
      obtain ⟨expr1, f1⟩ := p1
      simp only [dcCore, h1, Except.ok.injEq, Prod.mk.injEq] at h
      obtain ⟨hc, hf⟩ := h
      subst hc; subst hf
      obtain ⟨hn1, hle1, hr1⟩ := copyOkE a false f expr expr1 f1 h1
      refine ⟨?_, by omega, ?_⟩
      · simp only [normE]
        rw [hn1]
      · intro j hj
        simp only [containsE, Bool.or_eq_true, beq_iff_eq] at hj
        rcases hj with (hj | hj)
        · omega
        · have := hr1 j hj; omega
  | a, f, .yieldExpr i loc expr, c, f0, h => by
    cases h1 : dcE a false f expr with
    | error u => simp only [dcCore, h1] at h; exact Except.noConfusion h
    | ok p1 =>
      obtain ⟨expr1, f1⟩ := p1
      simp only [dcCore, h1, Except.ok.injEq, Prod.mk.injEq] at h
      obtain ⟨hc, hf⟩ := h
      subst hc; subst hf
      obtain ⟨hn1, hle1, hr1⟩ := copyOkE a false f expr expr1 f1 h1
      refine ⟨?_, by omega, ?_⟩
      · simp only [normE]
        rw [hn1]
      · intro j hj
        simp only [containsE, Bool.or_eq_true, beq_iff_eq] at hj
        rcases hj with (hj | hj)
        · omega
        · have := hr1 j hj; omega
  | a, f, .rescueCase i loc exceptions var body, c, f0, h => by
    cases h1 : dcL a f exceptions with
    | error u => simp only [dcCore, h1] at h; exact Except.noConfusion h
    | ok p1 =>
      obtain ⟨exceptions1, f1⟩ := p1
      cases h2 : dcE a false f1 var with
      | error u => simp only [dcCore, h1, h2] at h; exact Except.noConfusion h
      | ok p2 =>
        obtain ⟨var1, f2⟩ := p2
        cases h3 : dcE a false f2 body with
        | error u => simp only [dcCore, h1, h2, h3] at h; exact Except.noConfusion h
        | ok p3 =>
          obtain ⟨body1, f3⟩ := p3
          simp only [dcCore, h1, h2, h3, Except.ok.injEq, Prod.mk.injEq] at h
          obtain ⟨hc, hf⟩ := h
          subst hc; subst hf
          obtain ⟨hn1, hle1, hr1⟩ := copyOkL a f exceptions exceptions1 f1 h1
          obtain ⟨hn2, hle2, hr2⟩ := copyOkE a false f1 var var1 f2 h2
          obtain ⟨hn3, hle3, hr3⟩ := copyOkE a false f2 body body1 f3 h3
          refine ⟨?_, by omega, ?_⟩
          · simp only [normE]
            rw [hn1, hn2, hn3]
          · intro j hj
            simp only [containsE, Bool.or_eq_true, beq_iff_eq] at hj
            rcases hj with (((hj | hj) | hj) | hj)
            · omega
            · have := hr1 j hj; omega
            · have := hr2 j hj; omega
            · have := hr3 j hj; omega
  | a, f, .rescueExpr i loc body rescueCases elsep ensure, c, f0, h => by
    cases h1 : dcE a false f body with
    | error u => simp only [dcCore, h1] at h; exact Except.noConfusion h
    | ok p1 =>
      obtain ⟨body1, f1⟩ := p1
      cases h2 : dcL a f1 rescueCases with
      | error u => simp only [dcCore, h1, h2] at h; exact Except.noConfusion h
      | ok p2 =>
        obtain ⟨rescueCases1, f2⟩ := p2
        cases h3 : dcE a false f2 elsep with
        | error u => simp only [dcCore, h1, h2, h3] at h; exact Except.noConfusion h
        | ok p3 =>
          obtain ⟨elsep1, f3⟩ := p3
          cases h4 : dcE a false f3 ensure with
          | error u => simp only [dcCore, h1, h2, h3, h4] at h; exact Except.noConfusion h
          | ok p4 =>
            obtain ⟨ensure1, f4⟩ := p4
            simp only [dcCore, h1, h2, h3, h4, Except.ok.injEq, Prod.mk.injEq] at h
            obtain ⟨hc, hf⟩ := h
            subst hc; subst hf
            obtain ⟨hn1, hle1, hr1⟩ := copyOkE a false f body body1 f1 h1
            obtain ⟨hn2, hle2, hr2⟩ := copyOkL a f1 rescueCases rescueCases1 f2 h2
            obtain ⟨hn3, hle3, hr3⟩ := copyOkE a false f2 elsep elsep1 f3 h3
            obtain ⟨hn4, hle4, hr4⟩ := copyOkE a false f3 ensure ensure1 f4 h4
            refine ⟨?_, by omega, ?_⟩
            · simp only [normE]
              rw [hn1, hn2, hn3, hn4]
            · intro j hj
              simp only [containsE, Bool.or_eq_true, beq_iff_eq] at hj
              rcases hj with ((((hj | hj) | hj) | hj) | hj)
              · omega
              · have := hr1 j hj; omega
              · have := hr2 j hj; omega
              · have := hr3 j hj; omega
              · have := hr4 j hj; omega
  | a, f, .ident i loc sym, c, f0, h => by
    simp only [dcCore, Except.ok.injEq, Prod.mk.injEq] at h
    obtain ⟨hc, hf⟩ := h
    subst hc; subst hf
    refine ⟨?_, by omega, ?_⟩
    · simp [normE]
    · intro j hj
      simp only [containsE, Bool.or_eq_true, beq_iff_eq] at hj
      omega
  | a, f, .localExpr i loc lv, c, f0, h => by
    simp only [dcCore, Except.ok.injEq, Prod.mk.injEq] at h
    obtain ⟨hc, hf⟩ := h
    subst hc; subst hf
    refine ⟨?_, by omega, ?_⟩
    · simp [normE]
    · intro j hj
      simp only [containsE, Bool.or_eq_true, beq_iff_eq] at hj
      omega
  | a, f, .unresolvedIdent i loc kind nm, c, f0, h => by
    simp only [dcCore, Except.ok.injEq, Prod.mk.injEq] at h
    obtain ⟨hc, hf⟩ := h
    subst hc; subst hf
    refine ⟨?_, by omega, ?_⟩
    · simp [normE]
    · intro j hj
      simp only [containsE, Bool.or_eq_true, beq_iff_eq] at hj
      omega
  | a, f, .restArg i loc expr, c, f0, h => by
    cases h1 : dcE a false f expr with
    | error u => simp only [dcCore, h1] at h; exact Except.noConfusion h
    | ok p1 =>
      obtain ⟨expr1, f1⟩ := p1
      simp only [dcCore, h1, Except.ok.injEq, Prod.mk.injEq] at h
      obtain ⟨hc, hf⟩ := h
      subst hc; subst hf
      obtain ⟨hn1, hle1, hr1⟩ := copyOkE a false f expr expr1 f1 h1
      refine ⟨?_, by omega, ?_⟩
      · simp only [normE]
        rw [hn1]
      · intro j hj
        simp only [containsE, Bool.or_eq_true, beq_iff_eq] at hj
        rcases hj with (hj | hj)
        · omega
        · have := hr1 j hj; omega
  | a, f, .keywordArg i loc expr, c, f0, h => by
    cases h1 : dcE a false f expr with
    | error u => simp only [dcCore, h1] at h; exact Except.noConfusion h
    | ok p1 =>
      obtain ⟨expr1, f1⟩ := p1
      simp only [dcCore, h1, Except.ok.injEq, Prod.mk.injEq] at h
      obtain ⟨hc, hf⟩ := h
      subst hc; subst hf
      obtain ⟨hn1, hle1, hr1⟩ := copyOkE a false f expr expr1 f1 h1
      refine ⟨?_, by omega, ?_⟩
      · simp only [normE]
        rw [hn1]
      · intro j hj
        simp only [containsE, Bool.or_eq_true, beq_iff_eq] at hj
        rcases hj with (hj | hj)
        · omega
        · have := hr1 j hj; omega
  | a, f, .optionalArg i loc expr dflt, c, f0, h => by
    cases h1 : dcE a false f expr with
    | error u => simp only [dcCore, h1] at h; exact Except.noConfusion h
    | ok p1 =>
      obtain ⟨expr1, f1⟩ := p1
      cases h2 : dcE a false f1 dflt with
      | error u => simp only [dcCore, h1, h2] at h; exact Except.noConfusion h
      | ok p2 =>
        obtain ⟨dflt1, f2⟩ := p2
        simp only [dcCore, h1, h2, Except.ok.injEq, Prod.mk.injEq] at h
        obtain ⟨hc, hf⟩ := h
        subst hc; subst hf
        obtain ⟨hn1, hle1, hr1⟩ := copyOkE a false f expr expr1 f1 h1
        obtain ⟨hn2, hle2, hr2⟩ := copyOkE a false f1 dflt dflt1 f2 h2
        refine ⟨?_, by omega, ?_⟩
        · simp only [normE]
          rw [hn1, hn2]
        · intro j hj
          simp only [containsE, Bool.or_eq_true, beq_iff_eq] at hj
          rcases hj with ((hj | hj) | hj)
          · omega
          · have := hr1 j hj; omega
          · have := hr2 j hj; omega
  | a, f, .blockArg i loc expr, c, f0, h => by
    cases h1 : dcE a false f expr with
    | error u => simp only [dcCore, h1] at h; exact Except.noConfusion h
    | ok p1 =>
      obtain ⟨expr1, f1⟩ := p1
      simp only [dcCore, h1, Except.ok.injEq, Prod.mk.injEq] at h
      obtain ⟨hc, hf⟩ := h
      subst hc; subst hf
      obtain ⟨hn1, hle1, hr1⟩ := copyOkE a false f expr expr1 f1 h1
      refine ⟨?_, by omega, ?_⟩
      · simp only [normE]
        rw [hn1]
      · intro j hj
        simp only [containsE, Bool.or_eq_true, beq_iff_eq] at hj
        rcases hj with (hj | hj)
        · omega
        · have := hr1 j hj; omega
  | a, f, .shadowArg i loc expr, c, f0, h => by
    cases h1 : dcE a false f expr with
    | error u => simp only [dcCore, h1] at h; exact Except.noConfusion h
    | ok p1 =>
      obtain ⟨expr1, f1⟩ := p1
      simp only [dcCore, h1, Except.ok.injEq, Prod.mk.injEq] at h
      obtain ⟨hc, hf⟩ := h
      subst hc; subst hf
      obtain ⟨hn1, hle1, hr1⟩ := copyOkE a false f expr expr1 f1 h1
      refine ⟨?_, by omega, ?_⟩
      · simp only [normE]
        rw [hn1]
      · intro j hj
        simp only [containsE, Bool.or_eq_true, beq_iff_eq] at hj
        rcases hj with (hj | hj)
        · omega
        · have := hr1 j hj; omega
  | a, f, .assign i loc lhs rhs, c, f0, h => by
    cases h1 : dcE a false f lhs with
    | error u => simp only [dcCore, h1] at h; exact Except.noConfusion h
    | ok p1 =>
      obtain ⟨lhs1, f1⟩ := p1
      cases h2 : dcE a false f1 rhs with
      | error u => simp only [dcCore, h1, h2] at h; exact Except.noConfusion h
      | ok p2 =>
        obtain ⟨rhs1, f2⟩ := p2
        simp only [dcCore, h1, h2, Except.ok.injEq, Prod.mk.injEq] at h
        obtain ⟨hc, hf⟩ := h
        subst hc; subst hf
        obtain ⟨hn1, hle1, hr1⟩ := copyOkE a false f lhs lhs1 f1 h1
        obtain ⟨hn2, hle2, hr2⟩ := copyOkE a false f1 rhs rhs1 f2 h2
        refine ⟨?_, by omega, ?_⟩
        · simp only [normE]
          rw [hn1, hn2]
        · intro j hj
          simp only [containsE, Bool.or_eq_true, beq_iff_eq] at hj
          rcases hj with ((hj | hj) | hj)
          · omega
          · have := hr1 j hj; omega
          · have := hr2 j hj; omega
  | a, f, .send i loc recv fn args block, c, f0, h => by
    cases h1 : dcE a false f recv with
    | error u => simp only [dcCore, h1] at h; exact Except.noConfusion h
    | ok p1 =>
      obtain ⟨recv1, f1⟩ := p1
      cases h2 : dcL a f1 args with
      | error u => simp only [dcCore, h1, h2] at h; exact Except.noConfusion h
      | ok p2 =>
        obtain ⟨args1, f2⟩ := p2
        cases h3 : dcO a f2 block with
        | error u => simp only [dcCore, h1, h2, h3] at h; exact Except.noConfusion h
        | ok p3 =>
          obtain ⟨block1, f3⟩ := p3
          simp only [dcCore, h1, h2, h3, Except.ok.injEq, Prod.mk.injEq] at h
          obtain ⟨hc, hf⟩ := h
          subst hc; subst hf
          obtain ⟨hn1, hle1, hr1⟩ := copyOkE a false f recv recv1 f1 h1
          obtain ⟨hn2, hle2, hr2⟩ := copyOkL a f1 args args1 f2 h2
          obtain ⟨hn3, hle3, hr3⟩ := copyOkO a f2 block block1 f3 h3
          refine ⟨?_, by omega, ?_⟩
          · simp only [normE]
            rw [hn1, hn2, hn3]
          · intro j hj
            simp only [containsE, Bool.or_eq_true, beq_iff_eq] at hj
            rcases hj with (((hj | hj) | hj) | hj)
            · omega
            · have := hr1 j hj; omega
            · have := hr2 j hj; omega
            · have := hr3 j hj; omega
  | a, f, .cast i loc ty arg castKind, c, f0, h => by
    cases h1 : dcE a false f arg with
    | error u => simp only [dcCore, h1] at h; exact Except.noConfusion h
    | ok p1 =>
      obtain ⟨arg1, f1⟩ := p1
      simp only [dcCore, h1, Except.ok.injEq, Prod.mk.injEq] at h
      obtain ⟨hc, hf⟩ := h
      subst hc; subst hf
      obtain ⟨hn1, hle1, hr1⟩ := copyOkE a false f arg arg1 f1 h1
      refine ⟨?_, by omega, ?_⟩
      · simp only [normE]
        rw [hn1]
      · intro j hj
        simp only [containsE, Bool.or_eq_true, beq_iff_eq] at hj
        rcases hj with (hj | hj)
        · omega
        · have := hr1 j hj; omega
  | a, f, .hash i loc keys values, c, f0, h => by
    cases h1 : dcL a f keys with
    | error u => simp only [dcCore, h1] at h; exact Except.noConfusion h
    | ok p1 =>
      obtain ⟨keys1, f1⟩ := p1
      cases h2 : dcL a f1 values with
      | error u => simp only [dcCore, h1, h2] at h; exact Except.noConfusion h
      | ok p2 =>
        obtain ⟨values1, f2⟩ := p2
        simp only [dcCore, h1, h2, Except.ok.injEq, Prod.mk.injEq] at h
        obtain ⟨hc, hf⟩ := h
        subst hc; subst hf
        obtain ⟨hn1, hle1, hr1⟩ := copyOkL a f keys keys1 f1 h1
        obtain ⟨hn2, hle2, hr2⟩ := copyOkL a f1 values values1 f2 h2
        refine ⟨?_, by omega, ?_⟩
        · simp only [normE]
          rw [hn1, hn2]
        · intro j hj
          simp only [containsE, Bool.or_eq_true, beq_iff_eq] at hj
          rcases hj with ((hj | hj) | hj)
          · omega
          · have := hr1 j hj; omega
          · have := hr2 j hj; omega
  | a, f, .array i loc elems, c, f0, h => by
    cases h1 : dcL a f elems with
    | error u => simp only [dcCore, h1] at h; exact Except.noConfusion h
    | ok p1 =>
      obtain ⟨elems1, f1⟩ := p1
      simp only [dcCore, h1, Except.ok.injEq, Prod.mk.injEq] at h
      obtain ⟨hc, hf⟩ := h
      subst hc; subst hf
      obtain ⟨hn1, hle1, hr1⟩ := copyOkL a f elems elems1 f1 h1
      refine ⟨?_, by omega, ?_⟩
      · simp only [normE]
        rw [hn1]
      · intro j hj
        simp only [containsE, Bool.or_eq_true, beq_iff_eq] at hj
        rcases hj with (hj | hj)
        · omega
        · have := hr1 j hj; omega
  | a, f, .literal i loc value, c, f0, h => by
    simp only [dcCore, Except.ok.injEq, Prod.mk.injEq] at h
    obtain ⟨hc, hf⟩ := h
    subst hc; subst hf
    refine ⟨?_, by omega, ?_⟩
    · simp [normE]
    · intro j hj
      simp only [containsE, Bool.or_eq_true, beq_iff_eq] at hj
      omega
  | a, f, .constantLit i loc scope cnst, c, f0, h => by
    cases h1 : dcE a false f scope with
    | error u => simp only [dcCore, h1] at h; exact Except.noConfusion h
    | ok p1 =>
      obtain ⟨scope1, f1⟩ := p1
      simp only [dcCore, h1, Except.ok.injEq, Prod.mk.injEq] at h
      obtain ⟨hc, hf⟩ := h
      subst hc; subst hf
      obtain ⟨hn1, hle1, hr1⟩ := copyOkE a false f scope scope1 f1 h1
      refine ⟨?_, by omega, ?_⟩
      · simp only [normE]
        rw [hn1]
      · intro j hj
        simp only [containsE, Bool.or_eq_true, beq_iff_eq] at hj
        rcases hj with (hj | hj)
        · omega
        · have := hr1 j hj; omega
  | a, f, .arraySplat i loc arg, c, f0, h => by
    cases h1 : dcE a false f arg with
    | error u => simp only [dcCore, h1] at h; exact Except.noConfusion h
    | ok p1 =>
      obtain ⟨arg1, f1⟩ := p1
      simp only [dcCore, h1, Except.ok.injEq, Prod.mk.injEq] at h
      obtain ⟨hc, hf⟩ := h
      subst hc; subst hf
      obtain ⟨hn1, hle1, hr1⟩ := copyOkE a false f arg arg1 f1 h1
      refine ⟨?_, by omega, ?_⟩
      · simp only [normE]
        rw [hn1]
      · intro j hj
        simp only [containsE, Bool.or_eq_true, beq_iff_eq] at hj
        rcases hj with (hj | hj)
        · omega
        · have := hr1 j hj; omega
  | a, f, .hashSplat i loc arg, c, f0, h => by
    cases h1 : dcE a false f arg with
    | error u => simp only [dcCore, h1] at h; exact Except.noConfusion h
    | ok p1 =>
      obtain ⟨arg1, f1⟩ := p1
      simp only [dcCore, h1, Except.ok.injEq, Prod.mk.injEq] at h
      obtain ⟨hc, hf⟩ := h
      subst hc; subst hf
      obtain ⟨hn1, hle1, hr1⟩ := copyOkE a false f arg arg1 f1 h1
      refine ⟨?_, by omega, ?_⟩
      · simp only [normE]
        rw [hn1]
      · intro j hj
        simp only [containsE, Bool.or_eq_true, beq_iff_eq] at hj
        rcases hj with (hj | hj)
        · omega
        · have := hr1 j hj; omega
  | a, f, .zSuperArgs i loc, c, f0, h => by
    simp only [dcCore, Except.ok.injEq, Prod.mk.injEq] at h
    obtain ⟨hc, hf⟩ := h
    subst hc; subst hf
    refine ⟨?_, by omega, ?_⟩
    · simp [normE]
    · intro j hj
      simp only [containsE, Bool.or_eq_true, beq_iff_eq] at hj
      omega
  | a, f, .selfExpr i loc claz, c, f0, h => by
    simp only [dcCore, Except.ok.injEq, Prod.mk.injEq] at h
    obtain ⟨hc, hf⟩ := h
    subst hc; subst hf
    refine ⟨?_, by omega, ?_⟩
    · simp [normE]
    · intro j hj
      simp only [containsE, Bool.or_eq_true, beq_iff_eq] at hj
      omega
  | a, f, .blockExpr i loc args body sym, c, f0, h => by
    cases h1 : dcL a f args with
    | error u => simp only [dcCore, h1] at h; exact Except.noConfusion h
    | ok p1 =>
      obtain ⟨args1, f1⟩ := p1
      cases h2 : dcE a false f1 body with
      | error u => simp only [dcCore, h1, h2] at h; exact Except.noConfusion h
      | ok p2 =>
        obtain ⟨body1, f2⟩ := p2
        simp only [dcCore, h1, h2, Except.ok.injEq, Prod.mk.injEq] at h
        obtain ⟨hc, hf⟩ := h
        subst hc; subst hf
        obtain ⟨hn1, hle1, hr1⟩ := copyOkL a f args args1 f1 h1
        obtain ⟨hn2, hle2, hr2⟩ := copyOkE a false f1 body body1 f2 h2
        refine ⟨?_, by omega, ?_⟩
        · simp only [normE]
          rw [hn1, hn2]
        · intro j hj
          simp only [containsE, Bool.or_eq_true, beq_iff_eq] at hj
          rcases hj with ((hj | hj) | hj)
          · omega
          · have := hr1 j hj; omega
          · have := hr2 j hj; omega
  | a, f, .insSeq i loc stats expr, c, f0, h => by
    cases h1 : dcL a f stats with
    | error u => simp only [dcCore, h1] at h; exact Except.noConfusion h
    | ok p1 =>
      obtain ⟨stats1, f1⟩ := p1
      cases h2 : dcE a false f1 expr with
      | error u => simp only [dcCore, h1, h2] at h; exact Except.noConfusion h
      | ok p2 =>
        obtain ⟨expr1, f2⟩ := p2
        simp only [dcCore, h1, h2, Except.ok.injEq, Prod.mk.injEq] at h
        obtain ⟨hc, hf⟩ := h
        subst hc; subst hf
        obtain ⟨hn1, hle1, hr1⟩ := copyOkL a f stats stats1 f1 h1
        obtain ⟨hn2, hle2, hr2⟩ := copyOkE a false f1 expr expr1 f2 h2
        refine ⟨?_, by omega, ?_⟩
        · simp only [normE]
          rw [hn1, hn2]
        · intro j hj
          simp only [containsE, Bool.or_eq_true, beq_iff_eq] at hj
          rcases hj with ((hj | hj) | hj)
          · omega
          · have := hr1 j hj; omega
          · have := hr2 j hj; omega
  | a, f, .emptyTree i loc, c, f0, h => by
    simp only [dcCore, Except.ok.injEq, Prod.mk.injEq] at h
    obtain ⟨hc, hf⟩ := h
    subst hc; subst hf
    refine ⟨?_, by omega, ?_⟩
    · simp [normE]
    · intro j hj
      simp only [containsE, Bool.or_eq_true, beq_iff_eq] at hj
      omega
  | a, f, .treeRef i loc tree, c, f0, h => by
    cases tree with
    | none => simp only [dcCore] at h; exact Except.noConfusion h
    | some target =>
      simp only [dcCore] at h
      split at h
      · exact Except.noConfusion h
      · obtain ⟨hn, hle, hr⟩ := copyOkE a false f target c f0 h
        refine ⟨?_, hle, hr⟩
        simp only [normE]
        exact hn
termination_by a f e => 2 * sizeOf e

/-- `deepCopyVec` version. -/
theorem copyOkL : ∀ (a f : Nat) (l l' : ExprList) (f' : Nat),
    dcL a f l = .ok (l', f') →
    normL l' = normL l ∧ f ≤ f' ∧ (∀ j, containsL j l' = true → f ≤ j ∧ j < f')
  | a, f, .nil, l', f0, h => by
    simp only [dcL, Except.ok.injEq, Prod.mk.injEq] at h
    obtain ⟨hc, hf⟩ := h
    subst hc; subst hf
    refine ⟨rfl, le_refl f, ?_⟩
    intro j hj
    simp [containsL] at hj
  | a, f, .cons x xs, l', f0, h => by
    cases h1 : dcE a false f x with
    | error u => simp only [dcL, h1] at h; exact Except.noConfusion h
    | ok p1 =>
      obtain ⟨x1, f1⟩ := p1
      cases h2 : dcL a f1 xs with
      | error u => simp only [dcL, h1, h2] at h; exact Except.noConfusion h
      | ok p2 =>
        obtain ⟨xs1, f2⟩ := p2
        simp only [dcL, h1, h2, Except.ok.injEq, Prod.mk.injEq] at h
        obtain ⟨hc, hf⟩ := h
        subst hc; subst hf
        obtain ⟨hn1, hle1, hr1⟩ := copyOkE a false f x x1 f1 h1
        obtain ⟨hn2, hle2, hr2⟩ := copyOkL a f1 xs xs1 f2 h2
        refine ⟨?_, by omega, ?_⟩
        · simp only [normL]
          rw [hn1, hn2]
        · intro j hj
          simp only [containsL, Bool.or_eq_true] at hj
          rcases hj with (hj | hj)
          · have := hr1 j hj; omega
          · have := hr2 j hj; omega
termination_by a f l => 2 * sizeOf l

/-- Nullable-slot version. -/
theorem copyOkO : ∀ (a f : Nat) (o o' : ExprOpt) (f' : Nat),
    dcO a f o = .ok (o', f') →
    normO o' = normO o ∧ f ≤ f' ∧ (∀ j, containsO j o' = true → f ≤ j ∧ j < f')
  | a, f, .none, o', f0, h => by
    simp only [dcO, Except.ok.injEq, Prod.mk.injEq] at h
    obtain ⟨hc, hf⟩ := h
    subst hc; subst hf
    refine ⟨rfl, le_refl f, ?_⟩
    intro j hj
    simp [containsO] at hj
  | a, f, .some e, o', f0, h => by
    cases h1 : dcE a false f e with
    | error u => simp only [dcO, h1] at h; exact Except.noConfusion h
    | ok p1 =>
      obtain ⟨e1, f1⟩ := p1
      simp only [dcO, h1, Except.ok.injEq, Prod.mk.injEq] at h
      obtain ⟨hc, hf⟩ := h
      subst hc; subst hf
      obtain ⟨hn1, hle1, hr1⟩ := copyOkE a false f e e1 f1 h1
      refine ⟨?_, hle1, ?_⟩
      · simp only [normO]
        rw [hn1]
      · intro j hj
        simp only [containsO] at hj
        exact hr1 j hj
termination_by a f o => 2 * sizeOf o

end



/-! ## Child-vector lemmas -/

/-- Inserting at a valid position grows the vector by one. -/
theorem lengthEL_insertEL : ∀ (l : ExprList) (n : Nat) (x : Expression),
    n ≤ lengthEL l → lengthEL (insertEL l n x) = lengthEL l + 1
  | l, 0, x, _ => by simp [insertEL, lengthEL]
  | .nil, n + 1, x, h => by simp [lengthEL] at h
  | .cons s t, n + 1, x, h => by
    simp only [insertEL, lengthEL]
    rw [lengthEL_insertEL t n x (by simp [lengthEL] at h; omega)]

/-- Positions before the insertion point are unchanged. -/
theorem getEL_insertEL_lt : ∀ (l : ExprList) (n j : Nat) (x : Expression),
    j < n → getEL (insertEL l n x) j = getEL l j
  | _, 0, j, x, h => by omega
  | .nil, n + 1, j, x, h => by simp [insertEL]
  | .cons s t, n + 1, 0, x, h => by simp [insertEL, getEL]
  | .cons s t, n + 1, j + 1, x, h => by
    simp only [insertEL, getEL]
    exact getEL_insertEL_lt t n j x (by omega)

/-- The inserted element sits at the insertion position. -/
theorem getEL_insertEL_self : ∀ (l : ExprList) (n : Nat) (x : Expression),
    n ≤ lengthEL l → getEL (insertEL l n x) n = some x
  | l, 0, x, _ => by simp [insertEL, getEL]
  | .nil, n + 1, x, h => by simp [lengthEL] at h
  | .cons s t, n + 1, x, h => by
    simp only [insertEL, getEL]
    exact getEL_insertEL_self t n x (by simp [lengthEL] at h; omega)

/-- The scan's index is a valid body position. -/
theorem findCall_lt_length : ∀ (l : ExprList) (i : Nat) (c : Expression),
    findCall l = some (i, c) → i < lengthEL l
  | .nil, i, c, h => by simp [findCall] at h
  | .cons s t, i, c, h => by
    cases s
    case methodDef mid mloc msym mnm margs mrhs mself =>
      by_cases hn : (mnm == namesCall) = true
      · simp [findCall, hn] at h
        obtain ⟨hi, -⟩ := h
        simp [lengthEL]
        omega
      · cases hr : findCall t with
        | none => simp [findCall, hn, hr] at h
        | some p =>
          obtain ⟨i1, c1⟩ := p
          simp [findCall, hn, hr] at h
          obtain ⟨hi, -⟩ := h
          have := findCall_lt_length t i1 c1 hr
          simp [lengthEL]
          omega
    all_goals
      cases hr : findCall t with
      | none => simp [findCall, hr] at h
      | some p =>
        obtain ⟨i1, c1⟩ := p
        simp [findCall, hr] at h
        obtain ⟨hi, -⟩ := h
        have := findCall_lt_length t i1 c1 hr
        simp [lengthEL]
        omega

/-- The scan returns the body element at its index. -/
theorem findCall_getEL : ∀ (l : ExprList) (i : Nat) (c : Expression),
    findCall l = some (i, c) → getEL l i = some c
  | .nil, i, c, h => by simp [findCall] at h
  | .cons s t, i, c, h => by
    cases s
    case methodDef mid mloc msym mnm margs mrhs mself =>
      by_cases hn : (mnm == namesCall) = true
      · simp [findCall, hn] at h
        obtain ⟨hi, hc⟩ := h
        subst hc
        simp [← hi, getEL]
      · cases hr : findCall t with
        | none => simp [findCall, hn, hr] at h
        | some p =>
          obtain ⟨i1, c1⟩ := p
          simp [findCall, hn, hr] at h
          obtain ⟨hi, hc⟩ := h
          subst hc
          have := findCall_getEL t i1 c1 hr
          simp [← hi, getEL, this]
    all_goals
      cases hr : findCall t with
      | none => simp [findCall, hr] at h
      | some p =>
        obtain ⟨i1, c1⟩ := p
        simp [findCall, hr] at h
        obtain ⟨hi, hc⟩ := h
        subst hc
        have := findCall_getEL t i1 c1 hr
        simp [← hi, getEL, this]

/-- The scan only returns a `MethodDef` named `call`. -/
theorem findCall_shape : ∀ (l : ExprList) (i : Nat) (c : Expression),
    findCall l = some (i, c) →
    ∃ cid cloc csym cargs crhs cself,
      c = .methodDef cid cloc csym namesCall cargs crhs cself
  | .nil, i, c, h => by simp [findCall] at h
  | .cons s t, i, c, h => by
    cases s
    case methodDef mid mloc msym mnm margs mrhs mself =>
      by_cases hn : (mnm == namesCall) = true
      · simp [findCall, hn] at h
        obtain ⟨-, hc⟩ := h
        subst hc
        have : mnm = namesCall := by simpa using hn
        subst this
        exact ⟨mid, mloc, msym, margs, mrhs, mself, rfl⟩
      · cases hr : findCall t with
        | none => simp [findCall, hn, hr] at h
        | some p =>
          obtain ⟨i1, c1⟩ := p
          simp [findCall, hn, hr] at h
          obtain ⟨-, hc⟩ := h
          subst hc
          exact findCall_shape t i1 c1 hr
    all_goals
      cases hr : findCall t with
      | none => simp [findCall, hr] at h
      | some p =>
        obtain ⟨i1, c1⟩ := p
        simp [findCall, hr] at h
        obtain ⟨-, hc⟩ := h
        subst hc
        exact findCall_shape t i1 c1 hr

/-- Inserting two elements after position `i` does not disturb the scan:
the first `call` is still found at index `i`. -/
theorem findCall_ins2 : ∀ (l : ExprList) (i : Nat) (c x y : Expression),
    findCall l = some (i, c) →
    findCall (insertEL (insertEL l (i + 1) x) (i + 2) y) = some (i, c)
  | .nil, i, c, x, y, h => by simp [findCall] at h
  | .cons s t, i, c, x, y, h => by
    cases s
    case methodDef mid mloc msym mnm margs mrhs mself =>
      by_cases hn : (mnm == namesCall) = true
      · simp [findCall, hn] at h
        obtain ⟨hi, hc⟩ := h
        subst hc
        simp [← hi, insertEL, findCall, hn]
      · cases hr : findCall t with
        | none => simp [findCall, hn, hr] at h
        | some p =>
          obtain ⟨i1, c1⟩ := p
          simp [findCall, hn, hr] at h
          obtain ⟨hi, hc⟩ := h
          subst hc
          have ih := findCall_ins2 t i1 c1 x y hr
          subst hi
          simp only [insertEL, findCall]
          rw [ih]
          simp [hn]
    all_goals
      cases hr : findCall t with
      | none => simp [findCall, hr] at h
      | some p =>
        obtain ⟨i1, c1⟩ := p
        simp [findCall, hr] at h
        obtain ⟨hi, hc⟩ := h
        subst hc
        have ih := findCall_ins2 t i1 c1 x y hr
        subst hi
        simp only [insertEL, findCall]
        rw [ih]
        try simp


/-! ## patchDSL structure lemmas -/

/-- `isCommand` inspects only the kind and the ancestor list. -/
theorem isCommand_rhs_indep (ki loc sym : Nat) (nm : Expression) (ancs : ExprList)
    (rhs rhs2 : ExprList) (kind : ClassDefKind) :
    isCommand (.classDef ki loc sym nm ancs rhs2 kind) =
    isCommand (.classDef ki loc sym nm ancs rhs kind) := by
  simp only [isCommand]

/-- The rewriter's action when every match condition holds and both internal
deep copies succeed. -/
theorem patchDSL_eq_insert (f ki loc sym : Nat) (nm : Expression) (ancs rhs : ExprList)
    (kind : ClassDefKind) (i cid cloc csym cname : Nat) (cargs : ExprList)
    (crhs : Expression) (cself : Bool) (sigE : Expression) (newArgs : ExprList)
    (f₁ : Nat) (sigCopy : Expression) (f₂ : Nat)
    (hcmd : isCommand (.classDef ki loc sym nm ancs rhs kind) = true)
    (hfind : findCall rhs = some (i, .methodDef cid cloc csym cname cargs crhs cself))
    (hi : i ≠ 0)
    (hsig : getEL rhs (i - 1) = some sigE)
    (hshape : sigShape sigE = true)
    (hargs : dcArgs f cargs = some (newArgs, f₁))
    (hcopy : Expression.deepCopy f₁ sigE = some (sigCopy, f₂)) :
    patchDSL f (.classDef ki loc sym nm ancs rhs kind) =
      some (.classDef ki loc sym nm ancs
        (insertEL (insertEL rhs (i + 1) sigCopy) (i + 2)
          (MK.Method cloc cname newArgs (MK.Untyped cloc) true)) kind) := by
  simp [patchDSL, hcmd, hfind, hi, hsig, hshape, hargs, hcopy]

/-- The rewriter is the identity when the match predicate fails, no `call`
exists, `call` is the first statement, or the preceding statement does not
look like a signature. -/
theorem patchDSL_noop_helper (f ki loc sym : Nat) (nm : Expression) (ancs rhs : ExprList)
    (kind : ClassDefKind)
    (h : isCommand (.classDef ki loc sym nm ancs rhs kind) = false
       ∨ findCall rhs = none
       ∨ (∃ c, findCall rhs = some (0, c))
       ∨ (∃ i c sigE, findCall rhs = some (i, c) ∧ getEL rhs (i - 1) = some sigE ∧
            sigShape sigE = false)) :
    patchDSL f (.classDef ki loc sym nm ancs rhs kind) =
      some (.classDef ki loc sym nm ancs rhs kind) := by
  rcases h with h | h | ⟨c, h⟩ | ⟨i, c, sigE, hf, hg, hs⟩
  · simp [patchDSL, h]
  · simp only [patchDSL, h]
    split
    · rfl
    · rfl
  · simp only [patchDSL, h]
    split
    · rfl
    · simp
  · simp only [patchDSL, hf]
    split
    · rfl
    · by_cases hi : i = 0
      · subst hi
        simp
      · simp [hi, hg, hs]

/-- What a successful run of the rewriter can produce: either the class is
returned unchanged, or every match condition held, both deep copies
succeeded, and the two synthesized statements were inserted after `call`. -/
theorem patchDSL_inv (f ki loc sym : Nat) (nm : Expression) (ancs rhs : ExprList)
    (kind : ClassDefKind) (k' : Expression)
    (h : patchDSL f (.classDef ki loc sym nm ancs rhs kind) = some k') :
    k' = .classDef ki loc sym nm ancs rhs kind ∨
    ∃ i cid cloc csym cname cargs crhs cself sigE newArgs f₁ sigCopy f₂,
      isCommand (.classDef ki loc sym nm ancs rhs kind) = true ∧
      findCall rhs = some (i, .methodDef cid cloc csym cname cargs crhs cself) ∧
      i ≠ 0 ∧ getEL rhs (i - 1) = some sigE ∧ sigShape sigE = true ∧
      dcArgs f cargs = some (newArgs, f₁) ∧
      Expression.deepCopy f₁ sigE = some (sigCopy, f₂) ∧
      k' = .classDef ki loc sym nm ancs
        (insertEL (insertEL rhs (i + 1) sigCopy) (i + 2)
          (MK.Method cloc cname newArgs (MK.Untyped cloc) true)) kind := by
  simp only [patchDSL] at h
  split at h
  · left; exact (Option.some_inj.mp h).symm
  · rename_i hcmd
    have hcmd' : isCommand (.classDef ki loc sym nm ancs rhs kind) = true := by
      simpa using hcmd
    split at h
    · left; exact (Option.some_inj.mp h).symm
    · rename_i i callE hfind
      split at h
      · left; exact (Option.some_inj.mp h).symm
      · rename_i hi0
        have hi : i ≠ 0 := by simpa using hi0
        split at h
        · left; exact (Option.some_inj.mp h).symm
        · rename_i sigE hsig
          split at h
          · rename_i hshape
            split at h
            · rename_i cid cloc csym cname cargs crhs cself
              split at h
              · simp at h
              · rename_i p newArgs f₁ hargs
                split at h
                · simp at h
                · rename_i q sigCopy f₂ hcopy
                  right
                  exact ⟨i, cid, cloc, csym, cname, cargs, crhs, cself, sigE, newArgs,
                    f₁, sigCopy, f₂, hcmd', hfind, hi, hsig, hshape, hargs, hcopy,
                    (Option.some_inj.mp h).symm⟩
            · left; exact (Option.some_inj.mp h).symm
          · left; exact (Option.some_inj.mp h).symm


/-! ## Counter-independence of copy success, and totality of the match -/

/-- Every valid index fetches an element. -/
theorem getEL_lt_some : ∀ (l : ExprList) (j : Nat), j < lengthEL l → ∃ x, getEL l j = some x
  | .nil, j, h => by simp [lengthEL] at h
  | .cons s t, 0, h => ⟨s, rfl⟩
  | .cons s t, j + 1, h => by
    simp only [getEL]
    exact getEL_lt_some t j (by simp [lengthEL] at h; omega)

/-- Whether a public deep copy succeeds does not depend on the fresh-id
counter. -/
theorem deepCopy_some_fIndep (f f' : Nat) (e : Expression) (p : Expression × Nat)
    (h : Expression.deepCopy f e = some p) :
    ∃ q, Expression.deepCopy f' e = some q := by
  have h1 := isErr_dcE_eq_failsE (Expression.idOf e) true f e
  have h2 := isErr_dcE_eq_failsE (Expression.idOf e) true f' e
  cases hd : dcE (Expression.idOf e) true f' e with
  | ok r => exact ⟨r, by simp [Expression.deepCopy, hd]⟩
  | error u =>
    rw [hd] at h2
    simp only [isErr] at h2
    cases hc : dcE (Expression.idOf e) true f e with
    | ok r =>
      rw [hc] at h1
      simp only [isErr] at h1
      rw [← h2] at h1
      exact absurd h1 (by simp)
    | error u2 =>
      simp only [Expression.deepCopy, hc] at h
      exact absurd h (by simp)

/-- Whether the argument-list copy succeeds does not depend on the counter. -/
theorem dcArgs_fIndep : ∀ (l : ExprList) (f fr f' : Nat) (r : ExprList),
    dcArgs f l = some (r, fr) → ∃ r' fr', dcArgs f' l = some (r', fr')
  | .nil, f, fr, f', r, _ => ⟨.nil, f', by simp [dcArgs]⟩
  | .cons x xs, f, fr, f', r, h => by
    cases hx : Expression.deepCopy f x with
    | none => simp [dcArgs, hx] at h
    | some p =>
      obtain ⟨x1, g⟩ := p
      cases hxs : dcArgs g xs with
      | none => simp [dcArgs, hx, hxs] at h
      | some q =>
        obtain ⟨xs1, g1⟩ := q
        obtain ⟨p', hp'⟩ := deepCopy_some_fIndep f f' x (x1, g) hx
        obtain ⟨x1', g'⟩ := p'
        obtain ⟨xs1', g1', hxs'⟩ := dcArgs_fIndep xs g g1 g' xs1 hxs
        exact ⟨.cons x1' xs1', g1', by simp [dcArgs, hp', hxs']⟩

/-- Either some failure condition holds (the no-op cases), or the full match
succeeds with `call` a MethodDef named `call` at a nonzero index preceded by
a signature-shaped Send. -/
theorem patchDSL_match_total (ki loc sym : Nat) (nm : Expression) (ancs rhs : ExprList)
    (kind : ClassDefKind) :
    (isCommand (.classDef ki loc sym nm ancs rhs kind) = false
       ∨ findCall rhs = none
       ∨ (∃ c, findCall rhs = some (0, c))
       ∨ (∃ i c sigE, findCall rhs = some (i, c) ∧ getEL rhs (i - 1) = some sigE ∧
            sigShape sigE = false))
    ∨ (∃ i cid cloc csym cargs crhs cself sigE,
        isCommand (.classDef ki loc sym nm ancs rhs kind) = true ∧
        findCall rhs = some (i, .methodDef cid cloc csym namesCall cargs crhs cself) ∧
        i ≠ 0 ∧ getEL rhs (i - 1) = some sigE ∧ sigShape sigE = true) := by
  by_cases hc : isCommand (.classDef ki loc sym nm ancs rhs kind) = true
  · cases hfind : findCall rhs with
    | none => exact Or.inl (Or.inr (Or.inl rfl))
    | some p =>
      obtain ⟨i, c⟩ := p
      by_cases hi : i = 0
      · subst hi
        exact Or.inl (Or.inr (Or.inr (Or.inl ⟨c, rfl⟩)))
      · have hlt : i - 1 < lengthEL rhs := by
          have := findCall_lt_length _ _ _ hfind
          omega
        obtain ⟨sigE, hsig⟩ := getEL_lt_some rhs (i - 1) hlt
        by_cases hs : sigShape sigE = true
        · obtain ⟨cid, cloc, csym, cargs, crhs, cself, hcEq⟩ := findCall_shape _ _ _ hfind
          subst hcEq
          exact Or.inr ⟨i, cid, cloc, csym, cargs, crhs, cself, sigE, hc, rfl, hi, hsig, hs⟩
        · exact Or.inl (Or.inr (Or.inr (Or.inr ⟨i, c, sigE, rfl,
            hsig, by simpa using hs⟩)))
  · exact Or.inl (Or.inl (by simpa using hc))

/-- A fixed point of the rewriter at one counter is a fixed point at every
counter: the branch conditions do not mention the counter, and whether the
internal copies succeed does not either. -/
theorem patchDSL_fixed_fIndep (f f' ki loc sym : Nat) (nm : Expression)
    (ancs rhs : ExprList) (kind : ClassDefKind)
    (h : patchDSL f (.classDef ki loc sym nm ancs rhs kind) =
      some (.classDef ki loc sym nm ancs rhs kind)) :
    patchDSL f' (.classDef ki loc sym nm ancs rhs kind) =
      some (.classDef ki loc sym nm ancs rhs kind) := by
  rcases patchDSL_match_total ki loc sym nm ancs rhs kind with hno |
    ⟨i, cid, cloc, csym, cargs, crhs, cself, sigE, hcmd, hfind, hi, hsig, hshape⟩
  · exact patchDSL_noop_helper f' ki loc sym nm ancs rhs kind hno
  · exfalso
    have hlen : i + 1 ≤ lengthEL rhs := by
      have := findCall_lt_length _ _ _ hfind
      omega
    cases ha : dcArgs f cargs with
    | none =>
      have hnone : patchDSL f (.classDef ki loc sym nm ancs rhs kind) = none := by
        simp [patchDSL, hcmd, hfind, hi, hsig, hshape, ha]
      rw [hnone] at h
      exact absurd h (by simp)
    | some p =>
      obtain ⟨newArgs, f₁⟩ := p
      cases hcp : Expression.deepCopy f₁ sigE with
      | none =>
        have hnone : patchDSL f (.classDef ki loc sym nm ancs rhs kind) = none := by
          simp [patchDSL, hcmd, hfind, hi, hsig, hshape, ha, hcp]
        rw [hnone] at h
        exact absurd h (by simp)
      | some q =>
        obtain ⟨sigCopy, f₂⟩ := q
        have heq := patchDSL_eq_insert f ki loc sym nm ancs rhs kind i cid cloc csym
          namesCall cargs crhs cself sigE newArgs f₁ sigCopy f₂
          hcmd hfind hi hsig hshape ha hcp
        rw [heq] at h
        have h2 := Option.some_inj.mp h
        injection h2 with e1 e2 e3 e4 e5 e6 e7
        have hl2 : lengthEL (insertEL rhs (i + 1) sigCopy) = lengthEL rhs + 1 :=
          lengthEL_insertEL rhs (i + 1) sigCopy hlen
        have hl3 : lengthEL (insertEL (insertEL rhs (i + 1) sigCopy) (i + 2)
            (MK.Method cloc namesCall newArgs (MK.Untyped cloc) true)) =
            lengthEL rhs + 2 := by
          rw [lengthEL_insertEL _ _ _ (by omega), hl2]
        rw [e6] at hl3
        omega


/-! ## DSL rewriter claims -/

/-- C8: The DSL rewriter makes no change to the class body whenever the
Command shape predicate fails, or no MethodDef named `call` exists in the
body, or the first such `call` is the first statement (index 0), or the
statement preceding it is not a Send whose receiver is itself a Send. -/
theorem command_rewrite_frame (f ki loc sym : Nat) (nm : Expression) (ancs rhs : ExprList)
    (kind : ClassDefKind)
    (h : isCommand (.classDef ki loc sym nm ancs rhs kind) = false
       ∨ findCall rhs = none
       ∨ (∃ c, findCall rhs = some (0, c))
       ∨ (∃ i c sigE, findCall rhs = some (i, c) ∧ getEL rhs (i - 1) = some sigE ∧
            sigShape sigE = false)) :
    patchDSL f (.classDef ki loc sym nm ancs rhs kind) =
      some (.classDef ki loc sym nm ancs rhs kind) :=
  patchDSL_noop_helper f ki loc sym nm ancs rhs kind h

/-- C8 witness: a module-kind class is returned unchanged. -/
theorem command_rewrite_frame_witness :
    patchDSL 7 (.classDef 1 0 0 (.emptyTree 2 0) .nil .nil .moduleKind) =
      some (.classDef 1 0 0 (.emptyTree 2 0) .nil .nil .moduleKind) :=
  command_rewrite_frame 7 1 0 0 (.emptyTree 2 0) .nil .nil .moduleKind
    (Or.inl (by simp [isCommand]))

/-- C2: on a matching Command class whose first `call` sits at index `i > 0`
behind a signature-shaped Send, the rewritten body contains, in order: the
original signature Send at `i - 1`, the original `call` at `i`, the deep
copy of the signature at `i + 1`, and at `i + 2` a MethodDef with the same
name and location as `call`, the deep-copied argument list, an `Untyped`
body, and `isSelf = true`. -/
theorem command_rewrite_result (f ki loc sym : Nat) (nm : Expression) (ancs rhs : ExprList)
    (kind : ClassDefKind) (i cid cloc csym cname : Nat) (cargs : ExprList)
    (crhs : Expression) (cself : Bool) (sigE : Expression) (newArgs : ExprList)
    (f₁ : Nat) (sigCopy : Expression) (f₂ : Nat)
    (hcmd : isCommand (.classDef ki loc sym nm ancs rhs kind) = true)
    (hfind : findCall rhs = some (i, .methodDef cid cloc csym cname cargs crhs cself))
    (hi : i ≠ 0)
    (hsig : getEL rhs (i - 1) = some sigE)
    (hshape : sigShape sigE = true)
    (hargs : dcArgs f cargs = some (newArgs, f₁))
    (hcopy : Expression.deepCopy f₁ sigE = some (sigCopy, f₂)) :
    cname = namesCall ∧
    ∃ rhs2,
      patchDSL f (.classDef ki loc sym nm ancs rhs kind) =
        some (.classDef ki loc sym nm ancs rhs2 kind) ∧
      getEL rhs2 (i - 1) = some sigE ∧
      getEL rhs2 i = some (.methodDef cid cloc csym cname cargs crhs cself) ∧
      getEL rhs2 (i + 1) = some sigCopy ∧
      getEL rhs2 (i + 2) = some (.methodDef 0 cloc 0 cname newArgs (MK.Untyped cloc) true) := by
  have hlen : i + 1 ≤ lengthEL rhs := by
    have := findCall_lt_length _ _ _ hfind
    omega
  have hname : cname = namesCall := by
    obtain ⟨a1, a2, a3, a4, a5, a6, hEq⟩ := findCall_shape _ _ _ hfind
    injection hEq with e1 e2 e3 e4 e5 e6 e7
  refine ⟨hname,
    insertEL (insertEL rhs (i + 1) sigCopy) (i + 2)
      (MK.Method cloc cname newArgs (MK.Untyped cloc) true),
    patchDSL_eq_insert f ki loc sym nm ancs rhs kind i cid cloc csym cname cargs crhs
      cself sigE newArgs f₁ sigCopy f₂ hcmd hfind hi hsig hshape hargs hcopy,
    ?_, ?_, ?_, ?_⟩
  · rw [getEL_insertEL_lt _ _ _ _ (by omega), getEL_insertEL_lt _ _ _ _ (by omega)]
    exact hsig
  · rw [getEL_insertEL_lt _ _ _ _ (by omega), getEL_insertEL_lt _ _ _ _ (by omega)]
    exact findCall_getEL _ _ _ hfind
  · rw [getEL_insertEL_lt _ _ _ _ (by omega)]
    exact getEL_insertEL_self _ _ _ hlen
  · rw [getEL_insertEL_self _ _ _ (by rw [lengthEL_insertEL _ _ _ hlen]; omega)]
    simp [MK.Method]


/-- C2 witness: a concrete `class Foo < Opus::Command` with a signature Send
followed by `def call`; all hypotheses evaluated on the concrete tree. -/
theorem command_rewrite_result_witness :
    (1003 : Nat) = namesCall ∧
    ∃ rhs2,
      patchDSL 100 (.classDef 1 0 0 (.emptyTree 10 0)
        (.cons (.constantLit 2 0 (.constantLit 3 0 (.emptyTree 4 0) namesOpus) namesCommand) .nil)
        (.cons (.send 5 0 (.send 6 0 (.selfExpr 7 0 0) 60 .nil .none) 61 .nil .none)
          (.cons (.methodDef 8 0 0 1003 .nil (.emptyTree 9 0) false) .nil)) .classKind) =
        some (.classDef 1 0 0 (.emptyTree 10 0)
          (.cons (.constantLit 2 0 (.constantLit 3 0 (.emptyTree 4 0) namesOpus) namesCommand) .nil)
          rhs2 .classKind) ∧
      getEL rhs2 (1 - 1) = some (.send 5 0 (.send 6 0 (.selfExpr 7 0 0) 60 .nil .none) 61 .nil .none) ∧
      getEL rhs2 1 = some (.methodDef 8 0 0 1003 .nil (.emptyTree 9 0) false) ∧
      getEL rhs2 (1 + 1) = some (.send 102 0 (.send 101 0 (.selfExpr 100 0 0) 60 .nil .none) 61 .nil .none) ∧
      getEL rhs2 (1 + 2) = some (.methodDef 0 0 0 1003 .nil (MK.Untyped 0) true) := by
  exact command_rewrite_result 100 1 0 0 (.emptyTree 10 0)
    (.cons (.constantLit 2 0 (.constantLit 3 0 (.emptyTree 4 0) namesOpus) namesCommand) .nil)
    (.cons (.send 5 0 (.send 6 0 (.selfExpr 7 0 0) 60 .nil .none) 61 .nil .none)
      (.cons (.methodDef 8 0 0 1003 .nil (.emptyTree 9 0) false) .nil)) .classKind
    1 8 0 0 1003 .nil (.emptyTree 9 0) false
    (.send 5 0 (.send 6 0 (.selfExpr 7 0 0) 60 .nil .none) 61 .nil .none)
    .nil 100
    (.send 102 0 (.send 101 0 (.selfExpr 100 0 0) 60 .nil .none) 61 .nil .none) 103
    (by simp [isCommand, namesCommand, namesOpus])
    (by simp [findCall, namesCall])
    (by omega)
    (by simp [getEL])
    (by simp [sigShape, isSendNode])
    (by simp [dcArgs])
    (by simp [Expression.deepCopy, dcE, dcCore, dcL, dcO, Expression.idOf])

/-- C1 counterexample: applying the rewrite pass twice to a matching Command
class is not the same as applying it once — the second application inserts a
further signature/selfCall pair (body length 6 instead of 4). -/
theorem command_rewrite_not_idempotent_cex :
    (patchDSL 100 (.classDef 1 0 0 (.emptyTree 10 0)
        (.cons (.constantLit 2 0 (.constantLit 3 0 (.emptyTree 4 0) namesOpus) namesCommand) .nil)
        (.cons (.send 5 0 (.send 6 0 (.selfExpr 7 0 0) 60 .nil .none) 61 .nil .none)
          (.cons (.methodDef 8 0 0 1003 .nil (.emptyTree 9 0) false) .nil)) .classKind)).bind
      (patchDSL 200) ≠
    patchDSL 100 (.classDef 1 0 0 (.emptyTree 10 0)
        (.cons (.constantLit 2 0 (.constantLit 3 0 (.emptyTree 4 0) namesOpus) namesCommand) .nil)
        (.cons (.send 5 0 (.send 6 0 (.selfExpr 7 0 0) 60 .nil .none) 61 .nil .none)
          (.cons (.methodDef 8 0 0 1003 .nil (.emptyTree 9 0) false) .nil)) .classKind) := by
  intro h
  have h2 := congrArg (Option.map (fun k => match k with
    | Expression.classDef _ _ _ _ _ r _ => lengthEL r
    | _ => 0)) h
  simp [patchDSL, isCommand, findCall, sigShape, isSendNode, dcArgs, Expression.deepCopy,
    dcE, dcCore, dcL, dcO, Expression.idOf, getEL, insertEL, MK.Method, MK.Untyped,
    namesCall, namesCommand, namesOpus, symbolsRoot, lengthEL, Option.bind] at h2

/-- C1 (amended): the rewrite pass is idempotent precisely at its fixed
points: if one application returns `k'`, a second application returns `k'`
unchanged iff the first application already made no change.  On a matching
class each application inserts a further signature/selfCall pair, because the
scan still finds the original `call` behind its signature. -/
theorem command_rewrite_idempotent_iff (f f' : Nat) (k k' : Expression)
    (h : patchDSL f k = some k') :
    (patchDSL f' k' = some k' ↔ k' = k) := by
  cases k
  case classDef ki loc sym nm ancs rhs kind =>
    rcases patchDSL_inv f ki loc sym nm ancs rhs kind k' h with hk |
      ⟨i, cid, cloc, csym, cname, cargs, crhs, cself, sigE, newArgs, f₁, sigCopy, f₂,
        hcmd, hfind, hi, hsig, hshape, hargs, hcopy, hk⟩
    · subst hk
      constructor
      · intro _
        rfl
      · intro _
        exact patchDSL_fixed_fIndep f f' ki loc sym nm ancs rhs kind h
    · subst hk
      have hlen : i + 1 ≤ lengthEL rhs := by
        have := findCall_lt_length _ _ _ hfind
        omega
      have hlen2 : lengthEL (insertEL (insertEL rhs (i + 1) sigCopy) (i + 2)
          (MK.Method cloc cname newArgs (MK.Untyped cloc) true)) = lengthEL rhs + 2 := by
        rw [lengthEL_insertEL _ _ _ (by rw [lengthEL_insertEL _ _ _ hlen]; omega),
          lengthEL_insertEL _ _ _ hlen]
      constructor
      · intro hr
        exfalso
        have hcmd2 : isCommand (.classDef ki loc sym nm ancs
            (insertEL (insertEL rhs (i + 1) sigCopy) (i + 2)
              (MK.Method cloc cname newArgs (MK.Untyped cloc) true)) kind) = true := by
          rw [isCommand_rhs_indep ki loc sym nm ancs rhs _ kind]
          exact hcmd
        have hfind2 := findCall_ins2 rhs i (.methodDef cid cloc csym cname cargs crhs cself)
          sigCopy (MK.Method cloc cname newArgs (MK.Untyped cloc) true) hfind
        have hsig2 : getEL (insertEL (insertEL rhs (i + 1) sigCopy) (i + 2)
            (MK.Method cloc cname newArgs (MK.Untyped cloc) true)) (i - 1) = some sigE := by
          rw [getEL_insertEL_lt _ _ _ _ (by omega), getEL_insertEL_lt _ _ _ _ (by omega)]
          exact hsig
        obtain ⟨newArgs2, g₁, hargs2⟩ := dcArgs_fIndep cargs f f₁ f' newArgs hargs
        obtain ⟨q, hcopy2⟩ := deepCopy_some_fIndep f₁ g₁ sigE (sigCopy, f₂) hcopy
        obtain ⟨sigCopy2, g₂⟩ := q
        have heq := patchDSL_eq_insert f' ki loc sym nm ancs
          (insertEL (insertEL rhs (i + 1) sigCopy) (i + 2)
            (MK.Method cloc cname newArgs (MK.Untyped cloc) true)) kind
          i cid cloc csym cname cargs crhs cself sigE newArgs2 g₁ sigCopy2 g₂
          hcmd2 hfind2 hi hsig2 hshape hargs2 hcopy2
        rw [heq] at hr
        have h2 := Option.some_inj.mp hr
        injection h2 with e1 e2 e3 e4 e5 e6 e7
        have hlen3 : lengthEL (insertEL (insertEL
            (insertEL (insertEL rhs (i + 1) sigCopy) (i + 2)
              (MK.Method cloc cname newArgs (MK.Untyped cloc) true)) (i + 1) sigCopy2) (i + 2)
            (MK.Method cloc cname newArgs2 (MK.Untyped cloc) true)) =
            lengthEL rhs + 4 := by
          rw [lengthEL_insertEL _ _ _ (by rw [lengthEL_insertEL _ _ _ (by omega)]; omega),
            lengthEL_insertEL _ _ _ (by omega), hlen2]
        rw [e6] at hlen3
        rw [hlen2] at hlen3
        omega
      · intro hk2
        exfalso
        injection hk2 with e1 e2 e3 e4 e5 e6 e7
        rw [e6] at hlen2
        omega
  all_goals
    simp only [patchDSL] at h
    obtain rfl := Option.some_inj.mp h
    simp [patchDSL]

/-- C1 amended witness: on a non-matching class (module kind) the rewriter is
a fixed point, so a second application agrees with the first. -/
theorem command_rewrite_idempotent_iff_witness :
    (patchDSL 1 (.classDef 1 0 0 (.emptyTree 2 0) .nil .nil .moduleKind) =
        some (.classDef 1 0 0 (.emptyTree 2 0) .nil .nil .moduleKind) ↔
      (Expression.classDef 1 0 0 (.emptyTree 2 0) .nil .nil .moduleKind) =
        (.classDef 1 0 0 (.emptyTree 2 0) .nil .nil .moduleKind)) := by
  exact command_rewrite_idempotent_iff 0 1
    (.classDef 1 0 0 (.emptyTree 2 0) .nil .nil .moduleKind)
    (.classDef 1 0 0 (.emptyTree 2 0) .nil .nil .moduleKind)
    (by simp [patchDSL, isCommand])


/-! ## Deep-copy claims -/

/-- C5: `deepCopy(T)` returns the not-copyable null sentinel iff `T`
transitively contains a `TreeRef` whose target is null or whose expansion
would re-enter the avoid node — the root, for this public entry point.  The
`wfCore` hypothesis is the pointer well-formedness every C++ ownership tree
has: the root's address can recur below the root only as a `TreeRef` target.
On failure the entry point returns `none`: the thrown `DeepCopyError` is
caught at the top level and no partial tree escapes to the caller. -/
theorem deepCopy_none_iff_refFails (f : Nat) (e : Expression)
    (hwf : wfCore (Expression.idOf e) e = true) :
    (Expression.deepCopy f e = none ↔ refFailsE (Expression.idOf e) e = true) := by
  have h1 := isErr_dcE_eq_failsE (Expression.idOf e) true f e
  have h3 := failsCore_eq_refFailsE_of_wf (Expression.idOf e) e hwf
  have h2 : failsE (Expression.idOf e) true e = failsCore (Expression.idOf e) e := by
    simp [failsE]
  rw [h2, h3] at h1
  cases hdc : dcE (Expression.idOf e) true f e with
  | error u =>
    rw [hdc] at h1
    have hrf : refFailsE (Expression.idOf e) e = true := by
      rw [← h1]
      rfl
    simp only [Expression.deepCopy, hdc]
    exact ⟨fun _ => hrf, fun _ => trivial⟩
  | ok r =>
    rw [hdc] at h1
    have hrf : refFailsE (Expression.idOf e) e = false := by
      rw [← h1]
      rfl
    simp only [Expression.deepCopy, hdc]
    constructor
    · intro hx
      exact absurd hx (by simp)
    · intro hx
      rw [hrf] at hx
      exact absurd hx (by simp)

/-- C5 witness: a `TreeRef` pointing back at the root (scenario S5) is
pointer-well-formed and not copyable. -/
theorem deepCopy_none_iff_refFails_witness :
    Expression.deepCopy 5 (.treeRef 1 0 (.some (.emptyTree 1 0))) = none := by
  have h := deepCopy_none_iff_refFails 5 (.treeRef 1 0 (.some (.emptyTree 1 0)))
    (by simp [wfCore, Expression.idOf])
  apply h.mpr
  simp [refFailsE, containsE, Expression.idOf]

/-- C6: a successful deep copy (any avoid pointer, any root flag) produces a
tree structurally equal to the original — same normal form: all non-owning
fields (locations, symbol refs, names, literal values, kinds) and the
auxiliary fields `Block.symbol`, `ClassDef.kind`, `MethodDef.isSelf` carried
over verbatim, with `TreeRef` indirections transparently expanded — whose
node identities all lie in the freshly allocated range `[f, f')`; hence it
shares no node with any tree whose identities lie below `f`, in particular
with the original. -/
theorem deepCopy_structural_eq_and_fresh (a : Nat) (root : Bool) (f : Nat)
    (e c : Expression) (f' : Nat) (h : dcE a root f e = .ok (c, f')) :
    normE c = normE e ∧ f ≤ f' ∧ (∀ j, containsE j c = true → f ≤ j ∧ j < f') ∧
    ((∀ j, containsE j e = true → j < f) →
      ∀ j, ¬(containsE j c = true ∧ containsE j e = true)) := by
  obtain ⟨hn, hle, hr⟩ := copyOkE a root f e c f' h
  refine ⟨hn, hle, hr, ?_⟩
  intro hT j hj
  obtain ⟨hjc, hje⟩ := hj
  have hb1 := hr j hjc
  have hb2 := hT j hje
  omega

/-- C6 witness: copying a small tree with fresh counter 10 produces the
structurally equal tree with ids 10 and 11. -/
theorem deepCopy_structural_eq_and_fresh_witness :
    normE (Expression.constDef 11 7 4 (.emptyTree 10 0)) =
      normE (Expression.constDef 3 7 4 (.emptyTree 5 0)) ∧
    10 ≤ 12 ∧
    (∀ j, containsE j (Expression.constDef 11 7 4 (.emptyTree 10 0)) = true →
      10 ≤ j ∧ j < 12) ∧
    ((∀ j, containsE j (Expression.constDef 3 7 4 (.emptyTree 5 0)) = true → j < 10) →
      ∀ j, ¬(containsE j (Expression.constDef 11 7 4 (.emptyTree 10 0)) = true ∧
        containsE j (Expression.constDef 3 7 4 (.emptyTree 5 0)) = true)) := by
  exact deepCopy_structural_eq_and_fresh 1 true 10
    (Expression.constDef 3 7 4 (.emptyTree 5 0))
    (Expression.constDef 11 7 4 (.emptyTree 10 0)) 12
    (by simp [dcE, dcCore, Expression.idOf])

/-! ## Slow-path copy loop (C3) -/

/-- C3 counterexample: with a cached tree containing a null `TreeRef`, the
deep copy fails, its null result is pushed, and the pass continues with a
null tree in the working vector — the failure does not propagate out. -/
theorem slowPath_null_tree_cex :
    none ∈ (slowPathCopies 0 [some (.treeRef 1 0 .none)]).1 := by
  simp [slowPathCopies, Expression.deepCopy, dcE, dcCore, Expression.idOf]

/-- C3 (amended): the slow-path copy loop deep-copies every non-null cached
tree, in order, into the working vector; a failed deep copy contributes a
null entry and the loop returns normally (failure surfaces only as the null
tree, it does not propagate out of the pass). -/
theorem slowPathCopies_eq_copySeq (f : Nat) (l : List (Option Expression)) :
    slowPathCopies f l = copySeq f (l.filterMap id) := by
  induction l generalizing f with
  | nil => simp [slowPathCopies, copySeq]
  | cons x rest ih =>
    cases x with
    | none => simp [slowPathCopies, List.filterMap_cons, ih]
    | some t =>
      cases hc : Expression.deepCopy f t with
      | none => simp [slowPathCopies, copySeq, List.filterMap_cons, hc, ih]
      | some p =>
        obtain ⟨c, f₁⟩ := p
        simp [slowPathCopies, copySeq, List.filterMap_cons, hc, ih]

/-! ## Dispatcher claims (C4) -/

/-- C4 counterexample: a request whose method name is absent from the
registry is synthesized as an unsupported notification and receives no reply
at all — in particular no MethodNotFound error envelope. -/
theorem unknown_method_no_error_cex :
    processMessage lspRegistry "workspace/foo" ≠ Outcome.errorReply methodNotFound ∧
    processMessage lspRegistry "workspace/foo" = Outcome.noReply := by
  constructor
  · decide
  · decide

/-- C4 (amended): a registry entry that is a request (not a notification),
unsupported, and none of the three implemented requests, is answered with a
MethodNotFound (-32601) error envelope (and the loop continues); a method
name absent from the registry is synthesized as an unsupported notification
and receives no reply (the loop also continues). -/
theorem dispatch_unknown_behavior (all : List LSPMethod) (name : String) :
    (name ∉ all.map LSPMethod.name → name ≠ "exit" →
      processMessage all name = Outcome.noReply) ∧
    ((getMethod all name).isNotification = false →
      (getMethod all name).isSupported = false →
      (getMethod all name).name ≠ "initialize" →
      (getMethod all name).name ≠ "shutdown" →
      (getMethod all name).name ≠ "textDocument/documentSymbol" →
      processMessage all name = Outcome.errorReply (-32601)) := by
  constructor
  · intro hmem hexit
    have hf : all.find? (fun candidate => candidate.name == name) = none := by
      rw [List.find?_eq_none]
      intro x hx hbeq
      exact hmem (List.mem_map.mpr ⟨x, hx, by simpa using hbeq⟩)
    simp [processMessage, getMethod, hf, hexit]
  · intro hnot hsup h1 h2 h3
    simp [processMessage, hnot, h1, h2, h3, methodNotFound]

/-- C4 amended witness: `foo/bar` is unknown and silently ignored; an
unsupported registry request gets the MethodNotFound error. -/
theorem dispatch_unknown_behavior_witness :
    processMessage lspRegistry "foo/bar" = Outcome.noReply ∧
    processMessage (lspRegistry ++ [⟨"textDocument/definition", false, .clientInitiated, false⟩])
      "textDocument/definition" = Outcome.errorReply (-32601) := by
  constructor
  · exact (dispatch_unknown_behavior lspRegistry "foo/bar").1 (by decide) (by decide)
  · exact (dispatch_unknown_behavior
      (lspRegistry ++ [⟨"textDocument/definition", false, .clientInitiated, false⟩])
      "textDocument/definition").2 (by decide) (by decide) (by decide) (by decide) (by decide)

/-! ## Outbound request ids (C7) -/

/-- C7 counterexample: after one notification (which also pre-increments the
shared counter), the first server-initiated request carries id
`ruby-typer-req-2`, not the id formed from counter value 1. -/
theorem first_request_counter_cex :
    ((sendTrace initialRequestCounter [SendOp.notification, SendOp.request]).filterMap
        Prod.snd).head? = some "ruby-typer-req-2" ∧
    some "ruby-typer-req-2" ≠ some ("ruby-typer-req-" ++ toString 1) := by
  constructor
  · rfl
  · decide

/-- C7 (amended): both kinds of outbound sends pre-increment the shared
counter, so the j-th outbound send (counting notifications and requests,
with initial counter c) uses counter value `c + j + 1`, and exactly the
requests carry an id, of the form `ruby-typer-req-<counter>`; request ids
are therefore strictly increasing across the run, but the first request uses
counter value 1 only when no notification precedes it. -/
theorem sendTrace_spec : ∀ (ops : List SendOp) (c j : Nat), j < ops.length →
    (sendTrace c ops).get? j = some (c + j + 1,
      match ops.get? j with
      | some SendOp.request => some (requestIdString (c + j + 1))
      | _ => none)
  | [], c, j, h => by simp at h
  | op :: rest, c, 0, h => by
    cases op <;> simp [sendTrace, sendStep, List.get?]
  | op :: rest, c, j + 1, h => by
    have ih := sendTrace_spec rest (c + 1) j (by simpa using h)
    have harith : c + 1 + j + 1 = c + (j + 1) + 1 := by omega
    rw [harith] at ih
    simpa [sendTrace, List.get?] using ih

/-- C7 amended witness: a lone request uses counter value 1 and id
`ruby-typer-req-1`. -/
theorem sendTrace_spec_witness :
    (sendTrace 0 [SendOp.request]).get? 0 = some (0 + 0 + 1,
      match [SendOp.request].get? 0 with
      | some SendOp.request => some (requestIdString (0 + 0 + 1))
      | _ => none) := by
  exact sendTrace_spec [SendOp.request] 0 0 (by decide)

/-! ## Line/column conversion (C9) -/

/-- C9: `loc2Range` applies the u4 decrement `dec1` to each of start line,
start character, end line and end character; on the 1-based domain `dec1`
subtracts exactly 1, and the conversion is a bijection between the 1-based
representation (`1 ≤ x < 2^32`) and the 0-based representation
(`0 ≤ y < 2^32 - 1`). -/
theorem loc2Range_sub_one_bijective :
    (∀ p : Detail × Detail, loc2Range p =
      ⟨⟨dec1 p.1.line, dec1 p.1.column⟩, ⟨dec1 p.2.line, dec1 p.2.column⟩⟩) ∧
    (∀ x : Nat, 1 ≤ x → x < u32 → dec1 x = x - 1) ∧
    Function.Bijective convCoord := by
  have hu : u32 = 4294967296 := rfl
  refine ⟨fun p => rfl, ?_, ?_, ?_⟩
  · intro x h1 h2
    rw [hu] at h2
    simp only [dec1, hu]
    omega
  · rintro ⟨x, hx1, hx2⟩ ⟨y, hy1, hy2⟩ hEq
    simp only [convCoord, Subtype.mk.injEq, dec1, hu] at hEq
    rw [hu] at hx2 hy2
    apply Subtype.ext
    simp only
    omega
  · rintro ⟨y, hy⟩
    rw [hu] at hy
    refine ⟨⟨y + 1, by omega, by rw [hu]; omega⟩, ?_⟩
    apply Subtype.ext
    simp only [convCoord, dec1, hu]
    omega

/-- C9 witness: line 5 converts to line 4. -/
theorem loc2Range_sub_one_bijective_witness : dec1 5 = 5 - 1 :=
  loc2Range_sub_one_bijective.2.1 5 (by omega) (by decide)

/-! ## Reply correlation (C10) -/

/-- Erasing a key removes it from the pending map. -/
theorem findResp_eraseResp : ∀ (aw : Awaiting) (k : String),
    findResp (eraseResp aw k) k = none
  | [], k => rfl
  | (k1, h1) :: rest, k => by
    by_cases hk : (k1 == k) = true
    · simp [eraseResp, hk, findResp_eraseResp rest k]
    · simp [eraseResp, hk, findResp, findResp_eraseResp rest k]

/-- A correlated reply whose id has no pending entry invokes nothing. -/
theorem handleReplies_invoked_none (aw : Awaiting) (m : RMsg) (k : String)
    (hid : m.id = some k) (hf : findResp aw k = none) :
    (handleReplies aw m).invoked = none := by
  by_cases hr : m.hasResult = true
  · simp [handleReplies, hr, hid, hf]
  · by_cases he : m.hasError = true
    · simp only [Bool.not_eq_true] at hr
      simp [handleReplies, hr, he, hid, hf]
    · simp only [Bool.not_eq_true] at hr he
      simp [handleReplies, hr, he]

/-- C10: a message with a top-level `result` or `error` member is consumed
by the reply handler and never routed to method dispatch, even with a
missing or unmatched `id` (then it is silently dropped, leaving the pending
map unchanged and invoking nothing); on a match, the pending entry is erased
and its corresponding one-shot callback invoked, so any later reply carrying
the same id invokes nothing: each registered callback runs at most once. -/
theorem handleReplies_spec (aw : Awaiting) (m : RMsg) :
    ((m.hasResult = true ∨ m.hasError = true) →
      (handleReplies aw m).consumed = true ∧ routedToDispatch aw m = false) ∧
    ((m.hasResult = true ∨ m.hasError = true) →
      (m.id = none ∨ (∃ k, m.id = some k ∧ findResp aw k = none)) →
      (handleReplies aw m).awaiting = aw ∧ (handleReplies aw m).invoked = none) ∧
    (∀ k h, m.id = some k → findResp aw k = some h →
      (m.hasResult = true ∨ m.hasError = true) →
      (handleReplies aw m).awaiting = eraseResp aw k ∧
      (handleReplies aw m).invoked =
        some (if m.hasResult then h.onResult else h.onError) ∧
      findResp (handleReplies aw m).awaiting k = none ∧
      (∀ m2 : RMsg, m2.id = some k →
        (handleReplies (handleReplies aw m).awaiting m2).invoked = none)) := by
  refine ⟨?_, ?_, ?_⟩
  · intro hre
    by_cases hr : m.hasResult = true
    · cases hid : m.id with
      | none => simp [handleReplies, routedToDispatch, hr, hid]
      | some k =>
        cases hf : findResp aw k with
        | none => simp [handleReplies, routedToDispatch, hr, hid, hf]
        | some h => simp [handleReplies, routedToDispatch, hr, hid, hf]
    · have he : m.hasError = true := by
        rcases hre with hx | hx
        · exact absurd hx hr
        · exact hx
      simp only [Bool.not_eq_true] at hr
      cases hid : m.id with
      | none => simp [handleReplies, routedToDispatch, hr, he, hid]
      | some k =>
        cases hf : findResp aw k with
        | none => simp [handleReplies, routedToDispatch, hr, he, hid, hf]
        | some h => simp [handleReplies, routedToDispatch, hr, he, hid, hf]
  · intro hre hun
    rcases hun with hid | ⟨k, hid, hf⟩
    · by_cases hr : m.hasResult = true
      · simp [handleReplies, hr, hid]
      · have he : m.hasError = true := by
          rcases hre with hx | hx
          · exact absurd hx hr
          · exact hx
        simp only [Bool.not_eq_true] at hr
        simp [handleReplies, hr, he, hid]
    · by_cases hr : m.hasResult = true
      · simp [handleReplies, hr, hid, hf]
      · have he : m.hasError = true := by
          rcases hre with hx | hx
          · exact absurd hx hr
          · exact hx
        simp only [Bool.not_eq_true] at hr
        simp [handleReplies, hr, he, hid, hf]
  · intro k h hid hf hre
    have hmain : (handleReplies aw m).awaiting = eraseResp aw k ∧
        (handleReplies aw m).invoked =
          some (if m.hasResult then h.onResult else h.onError) := by
      by_cases hr : m.hasResult = true
      · simp [handleReplies, hr, hid, hf]
      · have he : m.hasError = true := by
          rcases hre with hx | hx
          · exact absurd hx hr
          · exact hx
        simp only [Bool.not_eq_true] at hr
        simp [handleReplies, hr, he, hid, hf]
    have herase : findResp (handleReplies aw m).awaiting k = none := by
      rw [hmain.1]
      exact findResp_eraseResp aw k
    refine ⟨hmain.1, hmain.2, herase, ?_⟩
    intro m2 hid2
    exact handleReplies_invoked_none _ m2 k hid2 herase

/-- C10 witness: a concrete `result` reply matching the lone pending entry
erases it, invokes its `onResult` callback, and a replay invokes nothing. -/
theorem handleReplies_spec_witness :
    (handleReplies [("ruby-typer-req-1", ⟨11, 12⟩)]
      ⟨true, false, some "ruby-typer-req-1"⟩).awaiting =
        eraseResp [("ruby-typer-req-1", ⟨11, 12⟩)] "ruby-typer-req-1" ∧
    (handleReplies [("ruby-typer-req-1", ⟨11, 12⟩)]
      ⟨true, false, some "ruby-typer-req-1"⟩).invoked = some 11 ∧
    (handleReplies (handleReplies [("ruby-typer-req-1", ⟨11, 12⟩)]
        ⟨true, false, some "ruby-typer-req-1"⟩).awaiting
      ⟨true, false, some "ruby-typer-req-1"⟩).invoked = none := by
  have h4 := (handleReplies_spec [("ruby-typer-req-1", ⟨11, 12⟩)]
    ⟨true, false, some "ruby-typer-req-1"⟩).2.2 "ruby-typer-req-1" ⟨11, 12⟩
    rfl (by simp [findResp]) (Or.inl rfl)
  refine ⟨h4.1, ?_, h4.2.2.2 ⟨true, false, some "ruby-typer-req-1"⟩ rfl⟩
  rw [h4.2.1]
  simp

end SorbetModel
